import Mathlib

/-!
Shallow embedding of the GravityClaw conversational-agent core
(src/agent.ts, src/memory.ts, src/vector-memory.ts, src/tools/registry.ts,
src/usage.ts, src/config.ts) and proofs about it.

Modelling conventions:
* SQLite tables are lists of rows held in insertion order.  Row ids and
  `created_at` are modelled by one strictly increasing counter: the schema
  (db.ts) declares `id INTEGER PRIMARY KEY AUTOINCREMENT` and
  `created_at INTEGER NOT NULL DEFAULT (unixepoch())`, and the index
  `(chat_id, created_at)` makes `ORDER BY created_at` scan in
  (created_at, rowid) order, which coincides with insertion order.
* The OpenAI-compatible chat-completion endpoint is an oracle
  `Nat → Bool → ModelOutcome`: the n-th call of the turn, and whether tool
  schemas were attached to the request (the message list is folded into the
  call index).  Thrown API errors are `ApiError` values.
* `JSON.parse` of a tool call's `arguments` string is folded into the input:
  the `arguments` field is `none` for a string JSON.parse rejects and
  `some a` for one it accepts (`a` standing for the parsed object; the code
  only forwards it to the executor).  The `|| "{}"` fallback for the empty
  string is covered: an empty arguments string parses as `some "{}"`.
* Fire-and-forget writes (vector archive, summarization) are applied
  synchronously; their failure branches are modelled by Boolean success
  flags in the environment.
-/

namespace GravityClaw

/-- Roles a chat message can have (OpenAI chat format). -/
inductive Role
  | system
  | user
  | assistant
  | tool
deriving DecidableEq, Repr

/-- One tool call requested by the model.  In the source this is
`toolCall.id`, `toolCall.function.name`, `toolCall.function.arguments`;
`arguments` here is the JSON.parse outcome of the raw arguments string
(see the file header). -/
structure ToolCallReq where
  id : String
  name : String
  arguments : Option String
deriving DecidableEq, Repr

/-- A chat message (OpenAI.ChatCompletionMessageParam).  `tool_calls` is
only nonempty on assistant messages; `tool_call_id` only set on tool
messages. -/
structure ChatMessage where
  role : Role
  content : Option String
  tool_calls : List ToolCallReq
  tool_call_id : Option String
deriving DecidableEq, Repr

/-- One row of the `conversation_history` table (db.ts schema).  The
`tool_calls` column stores a JSON serialization of the assistant's tool
calls; the serialization being injective, the column is modelled as the
structured list itself. -/
structure Row where
  id : Nat
  chat_id : String
  role : Role
  content : String
  tool_name : Option String
  tool_calls : Option (List ToolCallReq)
  created_at : Nat
deriving DecidableEq, Repr

/-- The SQLite database state used by memory.ts: the
`conversation_history` rows, the id/created_at counter, the
`chat_summaries` rows (chat_id, summary) and the `user_facts` rows
(chat_id, fact), each in insertion order. -/
structure Db where
  history : List Row
  nextId : Nat
  summaries : List (String × String)
  facts : List (String × String)
deriving DecidableEq, Repr

/-- memory.ts: `const MAX_HISTORY = 30` (max raw messages to load per chat). -/
def MAX_HISTORY : Nat := 30

/-- memory.ts `getChatSummary`: `SELECT summary FROM chat_summaries WHERE
chat_id = ?`, then `row?.summary || null` (an empty stored summary is
collapsed to null). -/
def getChatSummary (db : Db) (cid : String) : Option String :=
  match db.summaries.find? (fun p => p.1 == cid) with
  | some p => if p.2 == "" then none else some p.2
  | none => none

/-- memory.ts `updateChatSummary`: `INSERT ... ON CONFLICT(chat_id) DO
UPDATE SET summary = EXCLUDED.summary` — an upsert keyed by chat_id. -/
def updateChatSummary (db : Db) (cid s : String) : Db :=
  if (db.summaries.find? (fun p => p.1 == cid)).isSome then
    { db with summaries := db.summaries.map (fun p => if p.1 == cid then (cid, s) else p) }
  else
    { db with summaries := db.summaries ++ [(cid, s)] }

/-- memory.ts `getUserFacts`: `SELECT fact FROM user_facts WHERE chat_id = ?
ORDER BY created_at DESC` — the facts of the chat, newest first. -/
def getUserFacts (db : Db) (cid : String) : List String :=
  ((db.facts.filter (fun p => p.1 == cid)).reverse).map (fun p => p.2)

/-- memory.ts `loadHistory` row reconstruction: assistant rows with a
tool_calls column become assistant messages with those tool calls and
`content || null`; tool rows get `tool_call_id = row.tool_name || "unknown"`;
other rows carry their content verbatim. -/
def rowToMessage (r : Row) : ChatMessage :=
  match r.role with
  | .assistant =>
    match r.tool_calls with
    | some tcs => ⟨.assistant, if r.content == "" then none else some r.content, tcs, none⟩
    | none => ⟨.assistant, some r.content, [], none⟩
  | .tool =>
    ⟨.tool, some r.content, [],
      some (match r.tool_name with
            | some n => if n == "" then "unknown" else n
            | none => "unknown")⟩
  | role => ⟨role, some r.content, [], none⟩

/-- memory.ts `loadHistory`: `SELECT ... FROM conversation_history WHERE
chat_id = ? ORDER BY created_at ASC LIMIT MAX_HISTORY`, each row mapped by
`rowToMessage`.  Rows are kept in created_at order (file header), so the
SELECT is a filter followed by `take`. -/
def loadHistory (db : Db) (cid : String) : List ChatMessage :=
  (((db.history.filter (fun r => r.chat_id == cid)).take MAX_HISTORY).map rowToMessage)

/-- memory.ts `saveMessage` column serialization: user/system content is the
string (JSON.stringify of null otherwise); assistant content defaults to ""
and a nonempty tool-call list is serialized into the tool_calls column;
tool content is the string and tool_name holds the tool_call_id. -/
def mkRow (rid : Nat) (cid : String) (m : ChatMessage) : Row :=
  match m.role with
  | .user => ⟨rid, cid, .user, m.content.getD "null", none, none, rid⟩
  | .system => ⟨rid, cid, .system, m.content.getD "null", none, none, rid⟩
  | .assistant =>
    ⟨rid, cid, .assistant, m.content.getD "", none,
      if m.tool_calls.isEmpty then none else some m.tool_calls, rid⟩
  | .tool => ⟨rid, cid, .tool, m.content.getD "", m.tool_call_id, none, rid⟩

/-- memory.ts `saveMessage`: one INSERT into conversation_history. -/
def saveMessage (db : Db) (cid : String) (m : ChatMessage) : Db :=
  { db with history := db.history ++ [mkRow db.nextId cid m], nextId := db.nextId + 1 }

/-- memory.ts `saveMessages`: sequential `saveMessage` in one transaction. -/
def saveMessages (db : Db) (cid : String) (ms : List ChatMessage) : Db :=
  ms.foldl (fun d m => saveMessage d cid m) db

/-- memory.ts `clearHistory`: `DELETE FROM conversation_history WHERE
chat_id = ?`. -/
def clearHistoryDb (db : Db) (cid : String) : Db :=
  { db with history := db.history.filter (fun r => !(r.chat_id == cid)) }

/-- memory.ts `countMessages`: `SELECT COUNT(*) FROM conversation_history
WHERE chat_id = ?`. -/
def countMessages (db : Db) (cid : String) : Nat :=
  (db.history.filter (fun r => r.chat_id == cid)).length

/-- memory.ts `pruneHistory`: delete the chat's rows whose id is not among
the ids of the `keepLast` rows of that chat that are latest by created_at
(`ORDER BY created_at DESC LIMIT ?`). -/
def pruneHistory (db : Db) (cid : String) (keepLast : Nat) : Db :=
  let keepIds := (((db.history.filter (fun r => r.chat_id == cid)).reverse.take keepLast).map (fun r => r.id))
  { db with history := db.history.filter (fun r => !(r.chat_id == cid) || keepIds.contains r.id) }

/-- registry.ts `ToolDefinition`.  The JSON-Schema `parameters` object is
kept abstract as a string; `execute` receives the parsed arguments (with
the chat id injected by the agent loop, passed here as a second argument)
and either returns a result string or throws (`Except.error` with the
thrown error's message). -/
structure ToolDefinition where
  name : String
  description : String
  parameters : String
  execute : String → String → Except String String

/-- registry.ts: `const tools: Map<string, ToolDefinition> = new Map()`,
modelled as an association list in insertion order (registerTool rejects
duplicate keys, so list and Map semantics coincide). -/
structure Registry where
  tools : List (String × ToolDefinition)

/-- registry.ts `getTool`: `tools.get(name)`. -/
def getTool (reg : Registry) (name : String) : Option ToolDefinition :=
  (reg.tools.find? (fun p => p.1 == name)).map (fun p => p.2)

/-- registry.ts `registerTool`: throws a duplicate-name Error if
`tools.has(tool.name)`, otherwise `tools.set(tool.name, tool)`.  The throw
happens before the set, so on failure the registry is unchanged — modelled
by returning `Except.error` without a new registry. -/
def registerTool (reg : Registry) (t : ToolDefinition) : Except String Registry :=
  if (reg.tools.find? (fun p => p.1 == t.name)).isSome then
    Except.error ("Tool \"" ++ t.name ++ "\" is already registered.")
  else
    Except.ok ⟨reg.tools ++ [(t.name, t)]⟩

/-- registry.ts: the name/description/parameters triple sent to the model. -/
structure ToolSchema where
  name : String
  description : String
  parameters : String
deriving DecidableEq, Repr

/-- registry.ts `getAllToolSchemas`: every registered tool in OpenAI
function-calling shape. -/
def getAllToolSchemas (reg : Registry) : List ToolSchema :=
  reg.tools.map (fun p => ⟨p.2.name, p.2.description, p.2.parameters⟩)

/-- usage.ts: one price-table entry, USD per million tokens.  Prices are
exact rationals (JS numbers 0.15 and 0.60 denote these exact values). -/
structure PriceEntry where
  input : ℚ
  output : ℚ
deriving DecidableEq, Repr

/-- usage.ts `COST_PER_MILLION`: the static price table, including the
"default" entry. -/
def COST_PER_MILLION : List (String × PriceEntry) :=
  [("claude-sonnet-4-6", ⟨3, 15⟩),
   ("claude-opus-4-6", ⟨15, 75⟩),
   ("gpt-4o", ⟨5, 15⟩),
   ("gpt-4o-mini", ⟨mkRat 3 20, mkRat 3 5⟩),
   ("default", ⟨3, 15⟩)]

/-- Price-table lookup, `COST_PER_MILLION[model]`. -/
def lookupPrice (model : String) : Option PriceEntry :=
  (COST_PER_MILLION.find? (fun p => p.1 == model)).map (fun p => p.2)

/-- usage.ts `estimateCost`: `(inputTokens / 1_000_000) * prices.input +
(outputTokens / 1_000_000) * prices.output` with
`prices = COST_PER_MILLION[model] ?? COST_PER_MILLION["default"]`. -/
def estimateCost (model : String) (inputTokens outputTokens : Nat) : ℚ :=
  let prices := (lookupPrice model).getD ((lookupPrice "default").getD ⟨0, 0⟩)
  ((inputTokens : ℚ) / 1000000) * prices.input + ((outputTokens : ℚ) / 1000000) * prices.output

/-- usage.ts: one row of the `usage_log` table. -/
structure UsageRow where
  chat_id : String
  model : String
  input_tokens : Nat
  output_tokens : Nat
  latency_ms : Nat
  cost_usd : ℚ
deriving DecidableEq, Repr

/-- usage.ts `trackUsage`: computes the cost estimate and appends exactly
one row to usage_log. -/
def trackUsage (log : List UsageRow) (chatId model : String)
    (inputTokens outputTokens latencyMs : Nat) : List UsageRow :=
  log ++ [⟨chatId, model, inputTokens, outputTokens, latencyMs,
    estimateCost model inputTokens outputTokens⟩]

/-- Whitespace test for the String.trim model. -/
def isWsChar (c : Char) : Bool :=
  c == ' ' || c == '\t' || c == '\n' || c == '\r'

/-- JS `String.prototype.trim`, modelled over the character list. -/
def strTrim (s : String) : String :=
  String.mk (((s.data.dropWhile isWsChar).reverse.dropWhile isWsChar).reverse)

/-- JS `String.prototype.startsWith`. -/
def strStarts (s pre : String) : Bool :=
  pre.data.isPrefixOf s.data

/-- Substring membership over character lists (JS `String.prototype.includes`). -/
def listContainsSub (needle : List Char) : List Char → Bool
  | [] => needle.isEmpty
  | c :: t => needle.isPrefixOf (c :: t) || listContainsSub needle t

/-- JS `hay.includes(needle)`. -/
def strContains (hay needle : String) : Bool :=
  listContainsSub needle.data hay.data

/-- JS `String.prototype.toLowerCase` (ASCII-faithful; the substrings
compared against are ASCII). -/
def strToLower (s : String) : String :=
  String.mk (s.data.map Char.toLower)

/-- vector-memory.ts `TOP_K_RESULTS = 5`. -/
def TOP_K_RESULTS : Nat := 5

/-- vector-memory.ts `MIN_SCORE = 0.4`. -/
def MIN_SCORE : ℚ := mkRat 2 5

/-- vector-memory.ts `MemoryPayload`. -/
structure MemoryPayload where
  chatId : String
  role : Role
  content : String
  timestamp : Nat
deriving DecidableEq, Repr

/-- One point stored in the Qdrant collection.  The embedding vector is
kept abstract: similarity to a query is supplied as a scoring function
(see `qdrantSearch`). -/
structure MemoryPoint where
  id : Nat
  payload : MemoryPayload
deriving DecidableEq, Repr

/-- One Qdrant search result (point plus similarity score). -/
structure QdrantHit where
  point : MemoryPoint
  score : ℚ
deriving DecidableEq, Repr

/-- Insertion step of the descending-score sort. -/
def insertByScore (h : QdrantHit) : List QdrantHit → List QdrantHit
  | [] => [h]
  | x :: xs => if x.score ≤ h.score then h :: x :: xs else x :: insertByScore h xs

/-- Sort hits by descending score (insertion sort). -/
def sortByScoreDesc : List QdrantHit → List QdrantHit
  | [] => []
  | x :: xs => insertByScore x (sortByScoreDesc xs)

/-- Qdrant `points/search`, modelled from the request recallMemories sends:
a `must` filter on the chatId payload key, `score_threshold`, `limit`, and
descending-score ordering (Qdrant is external; these are its documented
semantics for that request).  `score` abstracts the cosine similarity of
each stored vector to the embedded query. -/
def qdrantSearch (points : List MemoryPoint) (score : MemoryPoint → ℚ)
    (cid : String) (lim : Nat) (threshold : ℚ) : List QdrantHit :=
  (sortByScoreDesc (((points.filter (fun p => p.payload.chatId == cid)).map
      (fun p => QdrantHit.mk p (score p))).filter
      (fun h => decide (threshold ≤ h.score)))).take lim

/-- vector-memory.ts recall formatting: `[date, role]: content`.  The
`toLocaleDateString` rendering of the timestamp is abstracted to its
decimal form. -/
def formatMemory (h : QdrantHit) : String :=
  "[" ++ toString h.point.payload.timestamp ++ ", " ++
    (match h.point.payload.role with
     | .user => "user"
     | .assistant => "assistant"
     | .system => "system"
     | .tool => "tool") ++ "]: " ++ h.point.payload.content

/-- vector-memory.ts `recallMemories`: short queries return nothing; the
embed/search round trip either fails (`ok = false`, the catch branch
returns `[]`) or yields the Qdrant hits, which are filtered once more by
`r.score >= MIN_SCORE` and formatted. -/
def recallMemories (points : List MemoryPoint) (score : MemoryPoint → ℚ)
    (ok : Bool) (cid : String) (query : String) (lim : Nat) : List String :=
  if (strTrim query).length < 5 then []
  else if !ok then []
  else
    (((qdrantSearch points score cid lim MIN_SCORE).filter
        (fun h => MIN_SCORE ≤ h.score)).map formatMemory)

/-- vector-memory.ts `rememberMessage`: skip empty/short content, skip
tool-result-shaped JSON, then embed and upsert one point (failure of the
round trip, `embedOk = false`, stores nothing).  `pid` models the
`Date.now()`-based unique id and timestamp. -/
def rememberMessage (archive : List MemoryPoint) (pid : Nat) (cid : String)
    (role : Role) (content : String) (embedOk : Bool) : List MemoryPoint :=
  if (strTrim content).length < 10 then archive
  else if strStarts content "\x7b\"error\"" || strStarts content "[\x7b\"type\"" then archive
  else if embedOk then archive ++ [⟨pid, ⟨cid, role, content, pid⟩⟩]
  else archive

/-- agent.ts: token usage counts of one model response. -/
structure Usage where
  prompt_tokens : Nat
  completion_tokens : Nat
deriving DecidableEq, Repr

/-- agent.ts: `choice.message` — the assistant message of the first choice. -/
structure AssistantMsg where
  content : Option String
  tool_calls : List ToolCallReq
deriving DecidableEq, Repr

/-- One chat-completion response: `response.choices[0]` (none when the
choices array is empty) and `response.usage`. -/
structure ModelResponse where
  choice : Option AssistantMsg
  usage : Option Usage
deriving DecidableEq, Repr

/-- An error thrown by the OpenAI client: HTTP-ish `status`, `code`, and a
message string. -/
structure ApiError where
  status : Option Int
  code : Option Int
  message : String
deriving DecidableEq, Repr

/-- Outcome of one chat-completion call: a response or a thrown error. -/
inductive ModelOutcome
  | ok (resp : ModelResponse)
  | err (e : ApiError)
deriving DecidableEq, Repr

/-- agent.ts `isToolUnsupportedError`: `const status = err.status ?? err.code`
is 404, 400 or 403, or the lowercased message contains "tool", "function",
"not supported" or "not a valid". -/
def isToolUnsupportedError (e : ApiError) : Bool :=
  let status := e.status <|> e.code
  if status == some 404 || status == some 400 || status == some 403 then true
  else
    let msg := strToLower e.message
    strContains msg "tool" || strContains msg "function" ||
      strContains msg "not supported" || strContains msg "not a valid"

/-- How a turn can fail: a propagated API error, or the uncaught
`JSON.parse` throw on a tool call's arguments string (carrying the tool
name being dispatched). -/
inductive TurnError
  | api (e : ApiError)
  | json (toolName : String)
deriving DecidableEq, Repr

/-- The external collaborators of one `runAgent` turn. -/
structure Env where
  /-- `client.chat.completions.create`: n-th call of the turn, and whether
  tool schemas were attached to the request. -/
  oracle : Nat → Bool → ModelOutcome
  /-- Outcome of the (at most one) summarization call of the turn. -/
  summOutcome : ModelOutcome
  /-- The tool registry (fixed during the turn). -/
  registry : Registry
  /-- config.ts `LLM_MODEL`. -/
  model : String
  /-- config.ts `VECTOR_MEMORY_ENABLED`. -/
  vectorEnabled : Bool
  /-- Similarity of each archived point to the incoming utterance. -/
  recallScore : MemoryPoint → ℚ
  /-- Whether the recall embed/search round trip succeeds. -/
  recallOk : Bool
  /-- Whether the archive embed/upsert round trips succeed. -/
  rememberOk : Bool

/-- The mutable state a turn reads and writes: the SQLite database, the
usage log, the Qdrant archive (with its id counter), and the process-wide
`modelSupportsTools` flag.  `calls` counts chat-completion calls made this
turn, `iterations` mirrors the loop counter, `summCalls` counts
summarization calls issued, and `turnLog` records every message persisted
via saveMessage/saveMessages this turn, in order (`calls`, `summCalls` and
`turnLog` are specification-only instrumentation; `runAgent` zeroes them
at turn start). -/
structure AgentState where
  db : Db
  usageLog : List UsageRow
  archive : List MemoryPoint
  archNext : Nat
  modelSupportsTools : Bool
  calls : Nat
  iterations : Nat
  summCalls : Nat
  turnLog : List ChatMessage

/-- Persist one message: `saveMessage` plus the turn's persistence log. -/
def persist (st : AgentState) (cid : String) (m : ChatMessage) : AgentState :=
  { st with db := saveMessage st.db cid m, turnLog := st.turnLog ++ [m] }

/-- Persist a batch (`saveMessages`). -/
def persistAll (st : AgentState) (cid : String) (ms : List ChatMessage) : AgentState :=
  ms.foldl (fun s m => persist s cid m) st

/-- Archive one message to vector memory (`rememberMessage`, fire-and-forget). -/
def archiveMsg (st : AgentState) (cid : String) (role : Role) (content : String)
    (embedOk : Bool) : AgentState :=
  { st with archive := rememberMessage st.archive st.archNext cid role content embedOk,
            archNext := st.archNext + 1 }

/-- agent.ts lines 160-179: one guarded chat-completion call.  On an error
recognized by `isToolUnsupportedError` while tools were attached, the
process-wide flag is cleared and the call is retried exactly once without
tool schemas; any other error propagates.  Wall-clock latency is abstracted
to 0 elsewhere; the call counter indexes the oracle. -/
def callModel (env : Env) (useTools : Bool) (st : AgentState) :
    Except TurnError ModelResponse × AgentState :=
  match env.oracle st.calls useTools with
  | .ok r => (.ok r, { st with calls := st.calls + 1 })
  | .err e =>
    if useTools && isToolUnsupportedError e then
      let st2 := { st with modelSupportsTools := false, calls := st.calls + 2 }
      match env.oracle (st.calls + 1) false with
      | .ok r => (.ok r, st2)
      | .err e2 => (.error (.api e2), st2)
    else
      (.error (.api e), { st with calls := st.calls + 1 })

/-- agent.ts lines 223-247: dispatch the requested tool calls in order.
Each arguments string is JSON.parsed (an uncaught throw aborts the whole
dispatch); a missing tool yields a synthetic error tool message; a thrown
executor error is caught into an error-text tool message. -/
def execToolCalls (reg : Registry) (cid : String) :
    List ToolCallReq → Except TurnError (List ChatMessage)
  | [] => .ok []
  | tc :: rest =>
    match tc.arguments with
    | none => .error (.json tc.name)
    | some args =>
      let msg : ChatMessage :=
        match getTool reg tc.name with
        | none => ⟨.tool, some ("Error: tool " ++ tc.name ++ " not found"), [], some tc.id⟩
        | some tool =>
          match tool.execute args cid with
          | .ok r => ⟨.tool, some r, [], some tc.id⟩
          | .error m => ⟨.tool, some ("Error: " ++ m), [], some tc.id⟩
      (execToolCalls reg cid rest).map (fun ms => msg :: ms)

/-- agent.ts line 200: `assistantMessage.content || "(No response)"`. -/
def finalTextOf (c : Option String) : String :=
  match c with
  | some s => if s == "" then "(No response)" else s
  | none => "(No response)"

/-- agent.ts `runSummarization`: one summarization chat-completion; on a
response whose first choice carries nonempty content, the summary row is
upserted and the history pruned to the last 15 rows; every failure
(thrown call, missing choice) is caught and leaves the database unchanged.
The prompt text sent (existing summary plus transcript) does not influence
the modelled state. -/
def runSummarization (summ : ModelOutcome) (db : Db) (cid : String) : Db :=
  match summ with
  | .err _ => db
  | .ok resp =>
    match resp.choice with
    | none => db
    | some m =>
      match m.content with
      | none => db
      | some s => if s == "" then db else pruneHistory (updateChatSummary db cid s) cid 15

/-- agent.ts lines 199-216, the final-answer branch: persist the assistant
text, archive it to vector memory unless storage is skipped, then — when
the chat now holds more than 40 messages — issue the one summarization
call of the turn. -/
def finishTurn (env : Env) (cid : String) (skipStorage : Bool)
    (finalText : String) (st : AgentState) : Except TurnError String × AgentState :=
  let st1 := persist st cid ⟨.assistant, some finalText, [], none⟩
  let st2 :=
    if env.vectorEnabled && !skipStorage then
      archiveMsg st1 cid .assistant finalText env.rememberOk
    else st1
  let st3 :=
    if 40 < countMessages st1.db cid then
      { st2 with db := runSummarization env.summOutcome st1.db cid,
                 summCalls := st2.summCalls + 1 }
    else st2
  (.ok finalText, st3)

/-- agent.ts line 252: the fixed safety message persisted and returned when
the iteration ceiling is reached. -/
def SAFETY_MESSAGE : String :=
  "⚠️ I hit the maximum number of tool iterations for this request. " ++
  "This is a safety limit to prevent runaway loops. Please try rephrasing your request."

/-- agent.ts line 154: tools are attached while the process-wide flag is
on and the registry is nonempty. -/
def useToolsFlag (env : Env) (st : AgentState) : Bool :=
  st.modelSupportsTools && !(getAllToolSchemas env.registry).isEmpty

/-- agent.ts lines 182-191: the usage ledger after one response — appended
to when the response carries usage numbers, unchanged otherwise
(wall-clock latency abstracted to 0). -/
def usageAfter (env : Env) (cid : String) (resp : ModelResponse)
    (log : List UsageRow) : List UsageRow :=
  match resp.usage with
  | some u => trackUsage log cid env.model u.prompt_tokens u.completion_tokens 0
  | none => log

/-- agent.ts lines 182-191: record a response's usage into the state. -/
def recordUsage (env : Env) (cid : String) (resp : ModelResponse) (st : AgentState) : AgentState :=
  { st with usageLog := usageAfter env cid resp st.usageLog }

/-- agent.ts lines 151-257, the while loop.  The fuel argument is
`MAX_AGENT_ITERATIONS - iterations`; fuel 0 is the safety-limit exit.
Each iteration: count the iteration, call the model (tools attached per
`useToolsFlag`), record usage when present, then branch: no first choice
returns "(No response)" unsaved; no tool calls ends the turn via
`finishTurn`; otherwise the assistant message is persisted verbatim, the
tool calls dispatched, their results persisted as one batch, and the loop
continues. -/
def agentLoop (env : Env) (cid : String) (skipStorage : Bool) :
    Nat → List ChatMessage → AgentState → Except TurnError String × AgentState
  | 0, _msgs, st =>
    (.ok SAFETY_MESSAGE, persist st cid ⟨.assistant, some SAFETY_MESSAGE, [], none⟩)
  | fuel + 1, msgs, st =>
    let st1 := { st with iterations := st.iterations + 1 }
    match callModel env (useToolsFlag env st1) st1 with
    | (.error e, st2) => (.error e, st2)
    | (.ok resp, st2) =>
      let st3 := recordUsage env cid resp st2
      match resp.choice with
      | none => (.ok "(No response)", st3)
      | some am =>
        if am.tool_calls.isEmpty then
          finishTurn env cid skipStorage (finalTextOf am.content) st3
        else
          let amMsg : ChatMessage := ⟨.assistant, am.content, am.tool_calls, none⟩
          let st4 := persist st3 cid amMsg
          match execToolCalls env.registry cid am.tool_calls with
          | .error e => (.error e, st4)
          | .ok toolMsgs =>
            agentLoop env cid skipStorage fuel (msgs ++ amMsg :: toolMsgs)
              (persistAll st4 cid toolMsgs)

/-- agent.ts `loadSoul` fallback identity (SOUL.md is read from the
filesystem at startup; the embedding uses the in-code fallback constant —
no modelled behavior depends on the prompt wording). -/
def SOUL : String :=
  "You are Gravity Claw, a sharp, direct, honest AI assistant."

/-- agent.ts `SYSTEM_PROMPT`: the soul plus a fixed operational-constraints
block, collapsed to a stub since no modelled behavior depends on its
wording. -/
def SYSTEM_PROMPT : String :=
  SOUL ++ "\n\n---\n\n## Operational Constraints (Hard Rules - Always Apply)\n" ++
  "## Memory Context (Injected Below)\n"

/-- agent.ts lines 112-128: the memory-context block prepended to the
system prompt (summary, numbered facts, recalled memories). -/
def buildMemoryContext (summary : Option String) (facts recalled : List String) : String :=
  let base := "\n\n---\n### 🧠 LONG-TERM MEMORY\n"
  let s1 :=
    match summary with
    | some s => base ++ "\n**Conversation Summary (compressed):**\n" ++ s ++ "\n"
    | none => base
  let s2 :=
    if facts.isEmpty then s1
    else s1 ++ "\n**Known Facts about the User:**\n" ++
      (String.intercalate "\n" ((facts.enum.map (fun p => toString (p.1 + 1) ++ ". " ++ p.2)))) ++ "\n"
  let s3 :=
    if recalled.isEmpty then s2
    else s2 ++ "\n**RECALLED MEMORIES** (semantically related to current message):\n" ++
      (String.intercalate "\n" (recalled.map (fun m => "• " ++ m))) ++ "\n"
  s3 ++ "---\n"

/-- agent.ts lines 93-146, the pre-loop state mutations: zero the per-turn
instrumentation, persist the user message before the first model call
unless `skipStorage`, and archive it (fire-and-forget) under the same
guard. -/
def turnEntryState (env : Env) (st0 : AgentState) (chatId userText : String)
    (skipStorage : Bool) : AgentState :=
  let st := { st0 with calls := 0, iterations := 0, summCalls := 0, turnLog := [] }
  let st := if skipStorage then st
            else persist st chatId ⟨.user, some userText, [], none⟩
  if env.vectorEnabled && !skipStorage then
    archiveMsg st chatId .user userText env.rememberOk
  else st

/-- agent.ts lines 100-146, the message list sent to the model: the system
prompt with the memory context (summary, facts, recalled memories), the
loaded history, and the incoming user message. -/
def turnEntryMessages (env : Env) (st0 : AgentState) (chatId userText : String) :
    List ChatMessage :=
  let history := loadHistory st0.db chatId
  let summary := getChatSummary st0.db chatId
  let facts := getUserFacts st0.db chatId
  let recalled :=
    if env.vectorEnabled then
      recallMemories st0.archive env.recallScore env.recallOk chatId userText TOP_K_RESULTS
    else []
  let memoryContext := buildMemoryContext summary facts recalled
  ⟨.system, some (SYSTEM_PROMPT ++ memoryContext), [], none⟩ ::
    (history ++ [⟨.user, some userText, [], none⟩])

/-- agent.ts `runAgent`: assemble the context, apply the pre-loop writes,
and run the loop with fuel `MAX_AGENT_ITERATIONS` (passed in as
`maxIterations`, config default 10). -/
def runAgent (env : Env) (maxIterations : Nat) (st0 : AgentState)
    (chatId userText : String) (skipStorage : Bool) :
    Except TurnError String × AgentState :=
  agentLoop env chatId skipStorage maxIterations
    (turnEntryMessages env st0 chatId userText)
    (turnEntryState env st0 chatId userText skipStorage)

/-! Concrete fixtures used by the closed theorems below. -/

/-- A fresh agent state: empty database, logs and archive, tool support
assumed available. -/
def st0F : AgentState :=
  ⟨⟨[], 0, [], []⟩, [], [], 0, true, 0, 0, 0, []⟩

/-- A conversation-history table holding 31 user messages "m0".."m30" for
chat "c", created in that order. -/
def db31 : Db :=
  ⟨(List.range 31).map (fun i => ⟨i, "c", .user, "m" ++ toString i, none, none, i⟩),
   31, [], []⟩

/-- A single archived memory point for chat "c1". -/
def ptsC6 : List MemoryPoint :=
  [⟨1, ⟨"c1", .user, "hello world memory", 0⟩⟩]

/-- An environment whose first model call throws a 404 and whose second
call (the retry) answers with plain text. -/
def envC3W : Env :=
  ⟨fun k _b => if k == 0 then .err ⟨some 404, none, "boom"⟩
               else .ok ⟨some ⟨some "done", []⟩, none⟩,
   .err ⟨none, none, ""⟩, ⟨[]⟩, "m", false, fun _ => 0, true, true⟩

/-- A concrete tool used by registry witnesses. -/
def toolT1 : ToolDefinition :=
  ⟨"t1", "a test tool", "schema", fun _ _ => .ok "ran"⟩

/-- What dispatching one tool call must produce: a tool-role message
correlated to the request id, whose content is the synthetic not-found
error for a missing tool, the caught executor error text for a throwing
executor, and the result for a successful one. -/
def ToolResultRel (reg : Registry) (cid : String) (tc : ToolCallReq) (m : ChatMessage) : Prop :=
  m.role = .tool ∧ m.tool_call_id = some tc.id ∧ m.tool_calls = [] ∧
  (getTool reg tc.name = none →
    m.content = some ("Error: tool " ++ tc.name ++ " not found")) ∧
  (∀ t a em, tc.arguments = some a → getTool reg tc.name = some t →
    t.execute a cid = .error em → m.content = some ("Error: " ++ em)) ∧
  (∀ t a r, tc.arguments = some a → getTool reg tc.name = some t →
    t.execute a cid = .ok r → m.content = some r)

/-- An environment whose model always answers with one tool call whose
arguments string is rejected by JSON.parse, against an empty registry. -/
def envC4X : Env :=
  ⟨fun _ _ => .ok ⟨some ⟨none, [⟨"id1", "nope", none⟩]⟩, none⟩,
   .err ⟨none, none, ""⟩, ⟨[]⟩, "m", false, fun _ => 0, true, true⟩

/-- Two concrete tool calls: one to an unregistered tool, one to `toolT1`. -/
def tcsW : List ToolCallReq :=
  [⟨"i1", "missing", some "\x7b\x7d"⟩, ⟨"i2", "t1", some "x"⟩]

/-- A registry holding only `toolT1`. -/
def regW : Registry :=
  ⟨[("t1", toolT1)]⟩

/-- An environment whose model requests one tool call ("call-1") on its
first call and answers plainly afterwards. -/
def envC7W : Env :=
  ⟨fun k _b => if k == 0 then .ok ⟨some ⟨none, [⟨"call-1", "nope", some "\x7b\x7d"⟩]⟩, none⟩
               else .ok ⟨some ⟨some "done", []⟩, none⟩,
   .err ⟨none, none, ""⟩, ⟨[]⟩, "m", false, fun _ => 0, true, true⟩

/-- The tool calls requested by one model-call outcome. -/
def respToolCalls : ModelOutcome → List ToolCallReq
  | .ok r =>
    match r.choice with
    | some m => m.tool_calls
    | none => []
  | .err _ => []

/-- A model that requests at least one well-formed tool call on every
call, whatever the request looks like (the scenario of the
iteration-ceiling test). -/
def AlwaysToolCalls (env : Env) : Prop :=
  ∀ k b, ∃ r am, env.oracle k b = .ok r ∧ r.choice = some am ∧
    am.tool_calls ≠ [] ∧ ∀ tc ∈ am.tool_calls, tc.arguments ≠ none

/-- Tool-call identifiers supplied by the model are unique: within one
response, and across distinct calls of the turn (the OpenAI API contract
for `tool_call.id`). -/
def OracleIdsDistinct (env : Env) : Prop :=
  (∀ k b, ((respToolCalls (env.oracle k b)).map (fun tc => tc.id)).Nodup) ∧
  (∀ k b k2 b2 tc tc2, tc ∈ respToolCalls (env.oracle k b) →
    tc2 ∈ respToolCalls (env.oracle k2 b2) → tc.id = tc2.id → k = k2)

/-- The identifier `tid` was requested by one of the first `n` model
calls. -/
def ReqIdFrom (env : Env) (n : Nat) (tid : String) : Prop :=
  ∃ k, k < n ∧ ∃ b tc, tc ∈ respToolCalls (env.oracle k b) ∧ tc.id = tid

/-- How many tool-call requests with identifier `tid` the messages of `L`
carry. -/
def requestCount (L : List ChatMessage) (tid : String) : Nat :=
  (L.map (fun m => (m.tool_calls.filter (fun tc => tc.id == tid)).length)).sum

/-- Every tool-role message of the log is preceded by exactly one matching
tool-call request. -/
def CorrelationOk (L : List ChatMessage) : Prop :=
  ∀ L1 m L2, L = L1 ++ m :: L2 → m.role = .tool →
    ∀ tid, m.tool_call_id = some tid → requestCount L1 tid = 1

/-- Every tool-call request already persisted this turn came from one of
the turn's model calls so far. -/
def LogReqsFrom (env : Env) (st : AgentState) : Prop :=
  ∀ m ∈ st.turnLog, ∀ tc ∈ m.tool_calls, ReqIdFrom env st.calls tc.id

/-- Agreement of two agent states on everything except the vector-memory
archive. -/
def StAgree (st1 st2 : AgentState) : Prop :=
  st1.db = st2.db ∧ st1.usageLog = st2.usageLog ∧
  st1.modelSupportsTools = st2.modelSupportsTools ∧ st1.calls = st2.calls ∧
  st1.iterations = st2.iterations ∧ st1.summCalls = st2.summCalls ∧
  st1.turnLog = st2.turnLog

/-- Well-formedness of the modelled database: row ids are below the
counter and pairwise distinct (AUTOINCREMENT). -/
def DbWf (db : Db) : Prop :=
  (∀ r ∈ db.history, r.id < db.nextId) ∧ (db.history.map (fun r => r.id)).Nodup

/-- A conversation-history table holding 41 user messages for chat "c",
created in that order, plus a pre-existing summary row for "c". -/
def db41 : Db :=
  ⟨(List.range 41).map (fun i => ⟨i, "c", .user, "m", none, none, i⟩),
   41, [("c", "old")], []⟩

/-- Agent state over `db41`. -/
def stC5W : AgentState :=
  ⟨db41, [], [], 0, true, 0, 0, 0, []⟩

/-- Environment whose summarization call succeeds with digest "digest". -/
def envC5W : Env :=
  ⟨fun _ _ => .ok ⟨some ⟨some "done", []⟩, none⟩,
   .ok ⟨some ⟨some "digest", []⟩, none⟩, ⟨[]⟩, "m", false, fun _ => 0, true, true⟩

/-! Theorems. -/

/-- Helper: `find?` over an append. -/
theorem find?_append_or {α : Type} (p : α → Bool) (l1 l2 : List α) :
    (l1 ++ l2).find? p = (l1.find? p).or (l2.find? p) :=
  List.find?_append

/-- C9: `trackUsage` appends exactly one usage row, priced at
(inputTokens/1M)·inputPrice + (outputTokens/1M)·outputPrice from the static
table, with the "default" entry (3, 15) for any model name not in the
table. -/
theorem C9_trackUsage_appends_priced_row :
    ∀ (log : List UsageRow) (cid model : String) (inTok outTok lat : Nat),
      trackUsage log cid model inTok outTok lat =
        log ++ [⟨cid, model, inTok, outTok, lat, estimateCost model inTok outTok⟩] ∧
      (∀ p, lookupPrice model = some p →
        estimateCost model inTok outTok =
          ((inTok : ℚ) / 1000000) * p.input + ((outTok : ℚ) / 1000000) * p.output) ∧
      (lookupPrice model = none →
        estimateCost model inTok outTok =
          ((inTok : ℚ) / 1000000) * 3 + ((outTok : ℚ) / 1000000) * 15) := by
  intro log cid model inTok outTok lat
  refine ⟨rfl, ?_, ?_⟩
  · intro p hp
    unfold estimateCost
    rw [hp]
    rfl
  · intro hp
    have hd : lookupPrice "default" = some ⟨3, 15⟩ := rfl
    unfold estimateCost
    rw [hp, hd]
    rfl

/-- C9 witness: a model absent from the table is priced by the default
entry, and one row is appended. -/
theorem C9_witness :
    lookupPrice "mystery-model" = none ∧
    trackUsage [] "c" "mystery-model" 2000000 1000000 7 =
      [⟨"c", "mystery-model", 2000000, 1000000, 7, (21 : ℚ)⟩] := by
  have h := C9_trackUsage_appends_priced_row [] "c" "mystery-model" 2000000 1000000 7
  have hn : lookupPrice "mystery-model" = none := by decide
  refine ⟨hn, ?_⟩
  rw [h.1, h.2.2 hn]
  norm_num

/-- C8: `registerTool` fails exactly when the name is already registered
(the duplicate-name throw precedes the Map mutation, so a failing call
leaves the registry unchanged); after a successful registration the name
looks up to the registered tool and every other name is unaffected, so an
unregistered name still looks up to an absent result. -/
theorem C8_registerTool_spec :
    ∀ (reg : Registry) (t : ToolDefinition),
      ((∃ e, registerTool reg t = .error e) ↔ (getTool reg t.name).isSome) ∧
      (∀ reg2, registerTool reg t = .ok reg2 →
        getTool reg2 t.name = some t ∧
        ∀ n, n ≠ t.name → getTool reg2 n = getTool reg n) ∧
      (getTool reg t.name = none → ∃ reg2, registerTool reg t = .ok reg2) := by
  intro reg t
  cases hfind : reg.tools.find? (fun p => p.1 == t.name) with
  | none =>
    have habs : getTool reg t.name = none := by
      unfold getTool; rw [hfind]; rfl
    have hok : registerTool reg t = .ok ⟨reg.tools ++ [(t.name, t)]⟩ := by
      simp [registerTool, hfind]
    refine ⟨?_, ?_, fun _ => ⟨_, hok⟩⟩
    · constructor
      · rintro ⟨e, he⟩
        rw [hok] at he
        exact Except.noConfusion he
      · intro hs
        rw [habs] at hs
        simp at hs
    · intro reg2 h2
      rw [hok] at h2
      injection h2 with h2
      subst h2
      constructor
      · unfold getTool
        simp only []
        rw [find?_append_or, hfind]
        simp [List.find?]
      · intro n hn
        have hne : (t.name == n) = false := by
          rw [beq_eq_false_iff_ne]
          exact fun hc => hn hc.symm
        unfold getTool
        simp only []
        rw [find?_append_or]
        simp [List.find?, hne]
  | some q =>
    have hsome : getTool reg t.name = some q.2 := by
      unfold getTool; rw [hfind]; rfl
    have herr : registerTool reg t =
        .error ("Tool \"" ++ t.name ++ "\" is already registered.") := by
      simp [registerTool, hfind]
    refine ⟨?_, ?_, ?_⟩
    · constructor
      · intro _
        rw [hsome]
        rfl
      · intro _
        exact ⟨_, herr⟩
    · intro reg2 h2
      rw [herr] at h2
      exact Except.noConfusion h2
    · intro habs
      rw [hsome] at habs
      exact Option.noConfusion habs

/-- C8 witness: registering a tool in an empty registry succeeds and makes
it retrievable, while a second registration of the same name fails. -/
theorem C8_witness :
    ∃ reg2, registerTool ⟨[]⟩ toolT1 = .ok reg2 ∧ getTool reg2 "t1" = some toolT1 ∧
      getTool reg2 "zzz" = none ∧ (∃ e, registerTool reg2 toolT1 = .error e) := by
  have h := C8_registerTool_spec ⟨[]⟩ toolT1
  have habs : getTool ⟨[]⟩ toolT1.name = none := rfl
  obtain ⟨reg2, hok⟩ := h.2.2 habs
  obtain ⟨hget, hother⟩ := h.2.1 reg2 hok
  refine ⟨reg2, hok, hget, ?_, ?_⟩
  · rw [hother "zzz" (by decide)]
    rfl
  · exact (C8_registerTool_spec reg2 toolT1).1.mpr (by rw [hget]; rfl)

/-- C1 (code bug): with 31 stored messages, `loadHistory` — which runs
`ORDER BY created_at ASC LIMIT 30` — returns the 30 oldest messages: the
oldest ("m0") is returned and the most recently created one ("m30"),
although stored, is not, contradicting the claimed most-recent window. -/
theorem C1_loadHistory_returns_oldest_window :
    (∃ r ∈ db31.history, r.content = "m30") ∧
    (loadHistory db31 "c").length = 30 ∧
    (⟨.user, some "m0", [], none⟩ : ChatMessage) ∈ loadHistory db31 "c" ∧
    ∀ m ∈ loadHistory db31 "c", m.content ≠ some "m30" := by
  decide

/-- Helper: a successful oracle call is returned as-is with the call
counted. -/
theorem callModel_ok (env : Env) (b : Bool) (st : AgentState) (r : ModelResponse)
    (hor : env.oracle st.calls b = .ok r) :
    callModel env b st = (.ok r, { st with calls := st.calls + 1 }) := by
  unfold callModel
  rw [hor]

/-- Helper: `callModel` only ever changes the call counter and the
tool-support flag. -/
theorem callModel_state (env : Env) (b : Bool) (st : AgentState) :
    ∃ c m, (callModel env b st).2 = { st with calls := c, modelSupportsTools := m } := by
  unfold callModel
  cases env.oracle st.calls b with
  | ok r => exact ⟨st.calls + 1, st.modelSupportsTools, rfl⟩
  | err e =>
    dsimp only
    split
    · cases env.oracle (st.calls + 1) false with
      | ok r => exact ⟨st.calls + 2, false, rfl⟩
      | err e2 => exact ⟨st.calls + 2, false, rfl⟩
    · exact ⟨st.calls + 1, st.modelSupportsTools, rfl⟩

/-- Helper: fields `callModel` preserves. -/
theorem callModel_fields (env : Env) (b : Bool) (st : AgentState) :
    ((callModel env b st).2).db = st.db ∧ ((callModel env b st).2).turnLog = st.turnLog ∧
    ((callModel env b st).2).archive = st.archive ∧
    ((callModel env b st).2).archNext = st.archNext ∧
    ((callModel env b st).2).iterations = st.iterations ∧
    ((callModel env b st).2).summCalls = st.summCalls ∧
    ((callModel env b st).2).usageLog = st.usageLog := by
  obtain ⟨c, m, h⟩ := callModel_state env b st
  rw [h]
  exact ⟨rfl, rfl, rfl, rfl, rfl, rfl, rfl⟩

/-- Helper: a batch persist is one `saveMessages` write plus the log
append. -/
theorem persistAll_eq :
    ∀ (ms : List ChatMessage) (st : AgentState) (cid : String),
      persistAll st cid ms =
        { st with db := saveMessages st.db cid ms, turnLog := st.turnLog ++ ms } := by
  intro ms
  induction ms with
  | nil =>
    intro st cid
    simp [persistAll, saveMessages]
  | cons m ms ih =>
    intro st cid
    show persistAll (persist st cid m) cid ms = _
    rw [ih]
    simp [persist, saveMessages]

/-- Helper: fields `recordUsage` preserves. -/
theorem recordUsage_fields (env : Env) (cid : String) (resp : ModelResponse) (st : AgentState) :
    (recordUsage env cid resp st).db = st.db ∧
    (recordUsage env cid resp st).turnLog = st.turnLog ∧
    (recordUsage env cid resp st).archive = st.archive ∧
    (recordUsage env cid resp st).archNext = st.archNext ∧
    (recordUsage env cid resp st).iterations = st.iterations ∧
    (recordUsage env cid resp st).summCalls = st.summCalls ∧
    (recordUsage env cid resp st).calls = st.calls ∧
    (recordUsage env cid resp st).modelSupportsTools = st.modelSupportsTools :=
  ⟨rfl, rfl, rfl, rfl, rfl, rfl, rfl, rfl⟩

/-- Helper: fields `finishTurn` preserves, and its first component. -/
theorem finishTurn_fields (env : Env) (cid : String) (skip : Bool) (t : String)
    (st : AgentState) :
    (finishTurn env cid skip t st).1 = .ok t ∧
    ((finishTurn env cid skip t st).2).iterations = st.iterations ∧
    ((finishTurn env cid skip t st).2).calls = st.calls ∧
    ((finishTurn env cid skip t st).2).modelSupportsTools = st.modelSupportsTools := by
  unfold finishTurn
  dsimp only
  split <;> split <;> exact ⟨rfl, rfl, rfl, rfl⟩

/-- Helper: dispatching all-parseable tool calls succeeds and produces one
tool-role message per request, carrying that request's id and no tool
calls of its own. -/
theorem execToolCalls_forall2 :
    ∀ (reg : Registry) (cid : String) (tcs : List ToolCallReq),
      (∀ tc ∈ tcs, tc.arguments ≠ none) →
      ∃ ms, execToolCalls reg cid tcs = .ok ms ∧
        List.Forall₂ (fun tc m =>
          ChatMessage.role m = .tool ∧ ChatMessage.tool_call_id m = some tc.id ∧
          ChatMessage.tool_calls m = []) tcs ms := by
  intro reg cid tcs
  induction tcs with
  | nil => exact fun _ => ⟨[], rfl, List.Forall₂.nil⟩
  | cons tc rest ih =>
    intro h
    obtain ⟨ms, hms, hrel⟩ := ih (fun x hx => h x (List.mem_cons_of_mem _ hx))
    cases harg : tc.arguments with
    | none => exact absurd harg (h tc (List.mem_cons_self _ _))
    | some a =>
      unfold execToolCalls
      rw [harg, hms]
      refine ⟨_, rfl, List.Forall₂.cons ?_ hrel⟩
      split
      · exact ⟨rfl, rfl, rfl⟩
      · split <;> exact ⟨rfl, rfl, rfl⟩

/-- Helper: the loop counter grows by at most the remaining fuel. -/
theorem agentLoop_iterations_le (env : Env) (cid : String) (skip : Bool) :
    ∀ (fuel : Nat) (msgs : List ChatMessage) (st : AgentState),
      ((agentLoop env cid skip fuel msgs st).2).iterations ≤ st.iterations + fuel := by
  intro fuel
  induction fuel with
  | zero =>
    intro msgs st
    simp [agentLoop, persist]
  | succ n ih =>
    intro msgs st
    simp only [agentLoop]
    split
    · rename_i e st2 hcall
      have hf := callModel_fields env (useToolsFlag env { st with iterations := st.iterations + 1 })
        { st with iterations := st.iterations + 1 }
      rw [hcall] at hf
      have h2 : st2.iterations = st.iterations + 1 := hf.2.2.2.2.1
      dsimp only
      omega
    · rename_i resp st2 hcall
      have hf := callModel_fields env (useToolsFlag env { st with iterations := st.iterations + 1 })
        { st with iterations := st.iterations + 1 }
      rw [hcall] at hf
      have h2 : st2.iterations = st.iterations + 1 := hf.2.2.2.2.1
      have hru : (recordUsage env cid resp st2).iterations = st2.iterations :=
        (recordUsage_fields env cid resp st2).2.2.2.2.1
      split
      · dsimp only
        omega
      · rename_i am _
        split
        · have hft := (finishTurn_fields env cid skip (finalTextOf am.content)
            (recordUsage env cid resp st2)).2.1
          omega
        · split
          · dsimp only [persist]
            omega
          · rename_i toolMsgs _
            refine le_trans (ih _ _) ?_
            have h4 : (persistAll (persist (recordUsage env cid resp st2) cid
                ⟨.assistant, am.content, am.tool_calls, none⟩) cid toolMsgs).iterations =
                (recordUsage env cid resp st2).iterations := by
              rw [persistAll_eq]
              rfl
            omega

/-- Helper: the pre-loop writes zero the per-turn counters. -/
theorem turnEntryState_fields (env : Env) (st0 : AgentState) (cid txt : String) (skip : Bool) :
    (turnEntryState env st0 cid txt skip).iterations = 0 ∧
    (turnEntryState env st0 cid txt skip).calls = 0 ∧
    (turnEntryState env st0 cid txt skip).summCalls = 0 ∧
    (turnEntryState env st0 cid txt skip).turnLog =
      (if skip then [] else [⟨.user, some txt, [], none⟩]) := by
  unfold turnEntryState
  dsimp only
  by_cases h1 : skip <;> by_cases h2 : env.vectorEnabled <;>
    simp [h1, h2, persist, archiveMsg]

/-- Helper: when the model requests tool calls on every call, the loop
burns all its fuel — one model call and one counted iteration per unit —
and ends by persisting and returning the safety message. -/
theorem agentLoop_all_tools (env : Env) (cid : String) (skip : Bool)
    (H : AlwaysToolCalls env) :
    ∀ (fuel : Nat) (msgs : List ChatMessage) (st : AgentState),
      ∃ st', agentLoop env cid skip fuel msgs st = (.ok SAFETY_MESSAGE, st') ∧
        st'.calls = st.calls + fuel ∧ st'.iterations = st.iterations + fuel ∧
        ∃ L, st'.turnLog = st.turnLog ++ L ++ [⟨.assistant, some SAFETY_MESSAGE, [], none⟩] := by
  intro fuel
  induction fuel with
  | zero =>
    intro msgs st
    refine ⟨persist st cid ⟨.assistant, some SAFETY_MESSAGE, [], none⟩, rfl, rfl, rfl, [], ?_⟩
    simp [persist]
  | succ n ih =>
    intro msgs st
    obtain ⟨r, am, hor, hch, hne, hargs⟩ :=
      H (AgentState.calls { st with iterations := st.iterations + 1 })
        (useToolsFlag env { st with iterations := st.iterations + 1 })
    obtain ⟨ms, hms, _⟩ := execToolCalls_forall2 env.registry cid am.tool_calls hargs
    simp only [agentLoop]
    split
    · rename_i e st2 hcall
      rw [callModel_ok env _ _ r hor] at hcall
      injection hcall with h1 _
      exact Except.noConfusion h1
    · rename_i resp st2 hcall
      rw [callModel_ok env _ _ r hor] at hcall
      injection hcall with h1 h2
      injection h1 with h1
      subst h1
      subst h2
      split
      · rename_i hnone
        rw [hch] at hnone
        exact Option.noConfusion hnone
      · rename_i am2 hsome
        rw [hch] at hsome
        injection hsome with hsome
        subst hsome
        split
        · rename_i hemp
          rw [List.isEmpty_eq_true] at hemp
          exact absurd hemp hne
        · split
          · rename_i e hex
            rw [hms] at hex
            exact Except.noConfusion hex
          · rename_i tms hex
            rw [hms] at hex
            injection hex with hex
            subst hex
            obtain ⟨st', heq, hc, hi, L, hlog⟩ := ih
              (msgs ++ ⟨.assistant, am.content, am.tool_calls, none⟩ :: ms)
              (persistAll (persist (recordUsage env cid r
                { { st with iterations := st.iterations + 1 } with
                  calls := AgentState.calls { st with iterations := st.iterations + 1 } + 1 })
                cid ⟨.assistant, am.content, am.tool_calls, none⟩) cid ms)
            refine ⟨st', heq, ?_, ?_, ?_⟩
            · rw [hc, persistAll_eq]
              show st.calls + 1 + n = st.calls + (n + 1)
              omega
            · rw [hi, persistAll_eq]
              show st.iterations + 1 + n = st.iterations + (n + 1)
              omega
            · refine ⟨⟨.assistant, am.content, am.tool_calls, none⟩ :: (ms ++ L), ?_⟩
              rw [hlog, persistAll_eq]
              show ((st.turnLog ++ [⟨.assistant, am.content, am.tool_calls, none⟩]) ++ ms)
                  ++ L ++ [⟨.assistant, some SAFETY_MESSAGE, [], none⟩] = _
              simp [List.append_assoc]

/-- C2: every turn runs at most `maxIterations` (MAX_AGENT_ITERATIONS)
loop iterations; and when the model requests tool calls on every call,
the loop makes exactly `maxIterations` model calls and then persists and
returns the fixed safety message. -/
theorem C2_iteration_ceiling :
    (∀ (env : Env) (maxIterations : Nat) (st0 : AgentState) (chatId userText : String)
        (skip : Bool),
      ((runAgent env maxIterations st0 chatId userText skip).2).iterations ≤ maxIterations) ∧
    (∀ (env : Env) (maxIterations : Nat) (st0 : AgentState) (chatId userText : String)
        (skip : Bool),
      AlwaysToolCalls env →
      ∃ st', runAgent env maxIterations st0 chatId userText skip = (.ok SAFETY_MESSAGE, st') ∧
        st'.calls = maxIterations ∧ st'.iterations = maxIterations ∧
        st'.turnLog.getLast? = some ⟨.assistant, some SAFETY_MESSAGE, [], none⟩) := by
  constructor
  · intro env mi st0 cid txt skip
    unfold runAgent
    have h := agentLoop_iterations_le env cid skip mi (turnEntryMessages env st0 cid txt)
      (turnEntryState env st0 cid txt skip)
    rw [(turnEntryState_fields env st0 cid txt skip).1] at h
    simpa using h
  · intro env mi st0 cid txt skip H
    unfold runAgent
    obtain ⟨st', heq, hc, hi, L, hlog⟩ := agentLoop_all_tools env cid skip H mi
      (turnEntryMessages env st0 cid txt) (turnEntryState env st0 cid txt skip)
    refine ⟨st', heq, ?_, ?_, ?_⟩
    · rw [hc, (turnEntryState_fields env st0 cid txt skip).2.1]
      omega
    · rw [hi, (turnEntryState_fields env st0 cid txt skip).1]
      omega
    · rw [hlog, List.getLast?_concat]

/-- C2 witness: with ceiling 3 and a model that always requests a tool
call, after exactly 3 model calls the loop returns the safety message and
persists it as the assistant message. -/
theorem C2_witness :
    ∃ st', runAgent
        ⟨fun _ _ => .ok ⟨some ⟨none, [⟨"x", "t", some "\x7b\x7d"⟩]⟩, none⟩,
         .err ⟨none, none, ""⟩, ⟨[]⟩, "m", false, fun _ => 0, true, true⟩
        3 st0F "c" "hi" false = (.ok SAFETY_MESSAGE, st') ∧
      st'.calls = 3 ∧ st'.iterations = 3 ∧
      st'.turnLog.getLast? = some ⟨.assistant, some SAFETY_MESSAGE, [], none⟩ := by
  refine C2_iteration_ceiling.2 _ 3 st0F "c" "hi" false ?_
  intro k b
  exact ⟨_, _, rfl, rfl, by decide, by decide⟩

/-- Helper: what `finishTurn` does to each persistent field: it saves the
final text, triggers the summarization branch exactly when the chat then
holds more than 40 messages, and never touches the counters; the vector
archive is the only thing the skip flag influences. -/
theorem finishTurn_snd_fields (env : Env) (cid : String) (skip : Bool) (t : String)
    (st : AgentState) :
    ((finishTurn env cid skip t st).2).db =
      (if 40 < countMessages (saveMessage st.db cid ⟨.assistant, some t, [], none⟩) cid
       then runSummarization env.summOutcome
         (saveMessage st.db cid ⟨.assistant, some t, [], none⟩) cid
       else saveMessage st.db cid ⟨.assistant, some t, [], none⟩) ∧
    ((finishTurn env cid skip t st).2).turnLog =
      st.turnLog ++ [⟨.assistant, some t, [], none⟩] ∧
    ((finishTurn env cid skip t st).2).usageLog = st.usageLog ∧
    ((finishTurn env cid skip t st).2).summCalls =
      (if 40 < countMessages (saveMessage st.db cid ⟨.assistant, some t, [], none⟩) cid
       then st.summCalls + 1 else st.summCalls) := by
  unfold finishTurn
  dsimp only [persist, archiveMsg]
  by_cases hc : 40 < countMessages (saveMessage st.db cid ⟨.assistant, some t, [], none⟩) cid
  · rw [if_pos hc, if_pos hc, if_pos hc]
    split <;> exact ⟨rfl, rfl, rfl, rfl⟩
  · rw [if_neg hc, if_neg hc, if_neg hc]
    split <;> exact ⟨rfl, rfl, rfl, rfl⟩

/-- Helper: `callModel` treats agreeing states identically. -/
theorem callModel_agree (env : Env) (b : Bool) {s1 s2 : AgentState} (h : StAgree s1 s2) :
    (callModel env b s1).1 = (callModel env b s2).1 ∧
    StAgree (callModel env b s1).2 (callModel env b s2).2 := by
  obtain ⟨hdb, hu, hm, hc, hi, hs, hl⟩ := h
  unfold callModel
  rw [hc]
  cases env.oracle s2.calls b with
  | ok r => exact ⟨rfl, hdb, hu, hm, rfl, hi, hs, hl⟩
  | err e =>
    dsimp only
    split
    · cases env.oracle (s2.calls + 1) false with
      | ok r => exact ⟨rfl, hdb, hu, rfl, rfl, hi, hs, hl⟩
      | err e2 => exact ⟨rfl, hdb, hu, rfl, rfl, hi, hs, hl⟩
    · exact ⟨rfl, hdb, hu, hm, rfl, hi, hs, hl⟩

/-- Helper: `recordUsage` preserves agreement. -/
theorem recordUsage_agree (env : Env) (cid : String) (resp : ModelResponse)
    {s1 s2 : AgentState} (h : StAgree s1 s2) :
    StAgree (recordUsage env cid resp s1) (recordUsage env cid resp s2) := by
  obtain ⟨hdb, hu, hm, hc, hi, hs, hl⟩ := h
  exact ⟨hdb, by rw [show (recordUsage env cid resp s1).usageLog =
      usageAfter env cid resp s1.usageLog from rfl, hu]; rfl, hm, hc, hi, hs, hl⟩

/-- Helper: `persist` preserves agreement. -/
theorem persist_agree (cid : String) (m : ChatMessage) {s1 s2 : AgentState}
    (h : StAgree s1 s2) : StAgree (persist s1 cid m) (persist s2 cid m) := by
  obtain ⟨hdb, hu, hm, hc, hi, hs, hl⟩ := h
  exact ⟨by rw [show (persist s1 cid m).db = saveMessage s1.db cid m from rfl, hdb]; rfl,
    hu, hm, hc, hi, hs,
    by rw [show (persist s1 cid m).turnLog = s1.turnLog ++ [m] from rfl, hl]; rfl⟩

/-- Helper: `persistAll` preserves agreement. -/
theorem persistAll_agree (cid : String) (ms : List ChatMessage) {s1 s2 : AgentState}
    (h : StAgree s1 s2) : StAgree (persistAll s1 cid ms) (persistAll s2 cid ms) := by
  obtain ⟨hdb, hu, hm, hc, hi, hs, hl⟩ := h
  rw [persistAll_eq, persistAll_eq]
  exact ⟨by rw [hdb], hu, hm, hc, hi, hs, by rw [hl]⟩

/-- Helper: `finishTurn` treats agreeing states identically up to the
archive, whatever the two skip flags are. -/
theorem finishTurn_agree (env : Env) (cid : String) (skipA skipB : Bool) (t : String)
    {s1 s2 : AgentState} (h : StAgree s1 s2) :
    (finishTurn env cid skipA t s1).1 = (finishTurn env cid skipB t s2).1 ∧
    StAgree (finishTurn env cid skipA t s1).2 (finishTurn env cid skipB t s2).2 := by
  obtain ⟨hdb, hu, hm, hc, hi, hs, hl⟩ := h
  have hf1 := finishTurn_snd_fields env cid skipA t s1
  have hf2 := finishTurn_snd_fields env cid skipB t s2
  have hfi1 := finishTurn_fields env cid skipA t s1
  have hfi2 := finishTurn_fields env cid skipB t s2
  refine ⟨hfi1.1.trans hfi2.1.symm, ?_, ?_, ?_, ?_, ?_, ?_, ?_⟩
  · rw [hf1.1, hf2.1, hdb]
  · rw [hf1.2.2.1, hf2.2.2.1, hu]
  · rw [hfi1.2.2.2, hfi2.2.2.2, hm]
  · rw [hfi1.2.2.1, hfi2.2.2.1, hc]
  · rw [hfi1.2.1, hfi2.2.1, hi]
  · rw [hf1.2.2.2, hf2.2.2.2, hdb, hs]
  · rw [hf1.2.1, hf2.2.1, hl]

/-- Helper: the loop makes exactly the same model calls and the same
Conversation Store and usage writes whichever value `skipStorage` has;
only the vector-archive writes can differ. -/
theorem agentLoop_skip_agree (env : Env) (cid : String) (skipA skipB : Bool) :
    ∀ (fuel : Nat) (msgs : List ChatMessage) (st1 st2 : AgentState), StAgree st1 st2 →
      (agentLoop env cid skipA fuel msgs st1).1 = (agentLoop env cid skipB fuel msgs st2).1 ∧
      StAgree (agentLoop env cid skipA fuel msgs st1).2
        (agentLoop env cid skipB fuel msgs st2).2 := by
  intro fuel
  induction fuel with
  | zero =>
    intro msgs st1 st2 h
    exact ⟨rfl, persist_agree cid _ h⟩
  | succ n ih =>
    intro msgs st1 st2 h
    have h1 : StAgree { st1 with iterations := st1.iterations + 1 }
        { st2 with iterations := st2.iterations + 1 } :=
      ⟨h.1, h.2.1, h.2.2.1, h.2.2.2.1, by rw [h.2.2.2.2.1], h.2.2.2.2.2.1, h.2.2.2.2.2.2⟩
    have hflag : useToolsFlag env { st1 with iterations := st1.iterations + 1 } =
        useToolsFlag env { st2 with iterations := st2.iterations + 1 } := by
      unfold useToolsFlag
      dsimp only
      rw [h.2.2.1]
    have hcm := callModel_agree env
      (useToolsFlag env { st1 with iterations := st1.iterations + 1 }) h1
    simp only [agentLoop]
    rw [← hflag]
    rcases hp1 : callModel env (useToolsFlag env { st1 with iterations := st1.iterations + 1 })
      { st1 with iterations := st1.iterations + 1 } with ⟨res1, s1b⟩
    rcases hp2 : callModel env (useToolsFlag env { st1 with iterations := st1.iterations + 1 })
      { st2 with iterations := st2.iterations + 1 } with ⟨res2, s2b⟩
    rw [hp1, hp2] at hcm
    obtain ⟨hres, hagb⟩ := hcm
    dsimp only at hres hagb
    subst hres
    cases res1 with
    | error e => exact ⟨rfl, hagb⟩
    | ok resp =>
      dsimp only
      have hag3 := recordUsage_agree env cid resp hagb
      split
      · exact ⟨rfl, hag3⟩
      · rename_i am heq
        split
        · exact finishTurn_agree env cid skipA skipB (finalTextOf am.content) hag3
        · have hag4 := persist_agree cid ⟨.assistant, am.content, am.tool_calls, none⟩ hag3
          split
          · exact ⟨rfl, hag4⟩
          · rename_i tms heq2
            exact ih _ _ _ (persistAll_agree cid tms hag4)

/-- Helper: with storage skipped, `finishTurn` leaves the vector archive
untouched. -/
theorem finishTurn_archive_skipTrue (env : Env) (cid t : String) (st : AgentState) :
    ((finishTurn env cid true t st).2).archive = st.archive ∧
    ((finishTurn env cid true t st).2).archNext = st.archNext := by
  unfold finishTurn
  dsimp only
  have hguard : (env.vectorEnabled && !true) = false := by simp
  rw [hguard]
  simp only [Bool.false_eq_true, if_false]
  split <;> exact ⟨rfl, rfl⟩

/-- Helper: with storage skipped, the whole loop leaves the vector archive
untouched. -/
theorem agentLoop_skipTrue_archive (env : Env) (cid : String) :
    ∀ (fuel : Nat) (msgs : List ChatMessage) (st : AgentState),
      ((agentLoop env cid true fuel msgs st).2).archive = st.archive ∧
      ((agentLoop env cid true fuel msgs st).2).archNext = st.archNext := by
  intro fuel
  induction fuel with
  | zero => intro msgs st; exact ⟨rfl, rfl⟩
  | succ n ih =>
    intro msgs st
    simp only [agentLoop]
    split
    · rename_i e st2 hcall
      have hf := callModel_fields env
        (useToolsFlag env { st with iterations := st.iterations + 1 })
        { st with iterations := st.iterations + 1 }
      rw [hcall] at hf
      exact ⟨hf.2.2.1, hf.2.2.2.1⟩
    · rename_i resp st2 hcall
      have hf := callModel_fields env
        (useToolsFlag env { st with iterations := st.iterations + 1 })
        { st with iterations := st.iterations + 1 }
      rw [hcall] at hf
      have hru := recordUsage_fields env cid resp st2
      split
      · exact ⟨hru.2.2.1.trans hf.2.2.1, hru.2.2.2.1.trans hf.2.2.2.1⟩
      · rename_i am heq
        split
        · have hft := finishTurn_archive_skipTrue env cid (finalTextOf am.content)
            (recordUsage env cid resp st2)
          exact ⟨(hft.1.trans hru.2.2.1).trans hf.2.2.1,
            (hft.2.trans hru.2.2.2.1).trans hf.2.2.2.1⟩
        · split
          · exact ⟨hru.2.2.1.trans hf.2.2.1, hru.2.2.2.1.trans hf.2.2.2.1⟩
          · rename_i tms heq2
            refine ⟨?_, ?_⟩
            · rw [(ih _ _).1, persistAll_eq]
              exact hru.2.2.1.trans hf.2.2.1
            · rw [(ih _ _).2, persistAll_eq]
              exact hru.2.2.2.1.trans hf.2.2.2.1

/-- Helper: a successful dispatch pairs each request, in order, with a
tool-role result carrying that request's id. -/
theorem execToolCalls_ok_forall2 (reg : Registry) (cid : String) :
    ∀ (tcs : List ToolCallReq) (ms : List ChatMessage),
      execToolCalls reg cid tcs = .ok ms →
      List.Forall₂ (fun tc m =>
        ChatMessage.role m = .tool ∧ ChatMessage.tool_call_id m = some tc.id ∧
        ChatMessage.tool_calls m = []) tcs ms := by
  intro tcs
  induction tcs with
  | nil =>
    intro ms h
    injection h with h
    rw [← h]
    exact List.Forall₂.nil
  | cons tc rest ih =>
    intro ms h
    unfold execToolCalls at h
    cases harg : tc.arguments with
    | none =>
      rw [harg] at h
      exact Except.noConfusion h
    | some a =>
      rw [harg] at h
      cases hrest : execToolCalls reg cid rest with
      | error e =>
        rw [hrest] at h
        exact Except.noConfusion h
      | ok ms2 =>
        rw [hrest] at h
        injection h with h
        rw [← h]
        refine List.Forall₂.cons ?_ (ih ms2 hrest)
        split
        · exact ⟨rfl, rfl, rfl⟩
        · split <;> exact ⟨rfl, rfl, rfl⟩

/-- Helper: a member of the right list of a `Forall₂` is related to some
member of the left list. -/
theorem forall2_mem_right {R : ToolCallReq → ChatMessage → Prop} :
    ∀ {tcs : List ToolCallReq} {ms : List ChatMessage},
      List.Forall₂ R tcs ms → ∀ m ∈ ms, ∃ tc ∈ tcs, R tc m := by
  intro tcs ms h
  induction h with
  | nil => intro m hm; exact absurd hm (List.not_mem_nil m)
  | @cons tc m2 tcs2 ms2 hR hrest ih =>
    intro m hm
    rcases List.mem_cons.mp hm with h1 | h1
    · exact ⟨tc, List.mem_cons_self _ _, h1 ▸ hR⟩
    · obtain ⟨tc2, htc2, hr⟩ := ih m h1
      exact ⟨tc2, List.mem_cons_of_mem _ htc2, hr⟩

/-- Helper: everything the loop itself persists is assistant- or
tool-roled. -/
theorem agentLoop_log_roles (env : Env) (cid : String) (skip : Bool) :
    ∀ (fuel : Nat) (msgs : List ChatMessage) (st : AgentState) (m : ChatMessage),
      m ∈ ((agentLoop env cid skip fuel msgs st).2).turnLog →
      m ∈ st.turnLog ∨ m.role = .assistant ∨ m.role = .tool := by
  intro fuel
  induction fuel with
  | zero =>
    intro msgs st m hm
    rcases List.mem_append.mp hm with h | h
    · exact .inl h
    · rw [List.mem_singleton.mp h]
      exact .inr (.inl rfl)
  | succ n ih =>
    intro msgs st m hm
    rw [agentLoop] at hm
    revert hm
    split
    · rename_i e st2 hcall
      intro hm
      have hf := callModel_fields env
        (useToolsFlag env { st with iterations := st.iterations + 1 })
        { st with iterations := st.iterations + 1 }
      rw [hcall] at hf
      rw [hf.2.1] at hm
      exact .inl hm
    · rename_i resp st2 hcall
      have hf := callModel_fields env
        (useToolsFlag env { st with iterations := st.iterations + 1 })
        { st with iterations := st.iterations + 1 }
      rw [hcall] at hf
      have hru := (recordUsage_fields env cid resp st2).2.1
      split
      · intro hm
        rw [hru, hf.2.1] at hm
        exact .inl hm
      · rename_i am heq
        split
        · intro hm
          rw [(finishTurn_snd_fields env cid skip (finalTextOf am.content)
            (recordUsage env cid resp st2)).2.1] at hm
          rcases List.mem_append.mp hm with h | h
          · rw [hru, hf.2.1] at h
            exact .inl h
          · rw [List.mem_singleton.mp h]
            exact .inr (.inl rfl)
        · split
          · rename_i e heq2
            intro hm
            rcases List.mem_append.mp hm with h | h
            · rw [hru, hf.2.1] at h
              exact .inl h
            · rw [List.mem_singleton.mp h]
              exact .inr (.inl rfl)
          · rename_i tms heq2
            intro hm
            rcases ih _ _ _ hm with h | h
            · rw [persistAll_eq] at h
              rcases List.mem_append.mp h with h2 | h2
              · rcases List.mem_append.mp (show m ∈ (recordUsage env cid resp st2).turnLog
                    ++ [⟨.assistant, am.content, am.tool_calls, none⟩] from h2) with h3 | h3
                · rw [hru, hf.2.1] at h3
                  exact .inl h3
                · rw [List.mem_singleton.mp h3]
                  exact .inr (.inl rfl)
              · obtain ⟨tc, _, hr⟩ :=
                  forall2_mem_right (execToolCalls_ok_forall2 env.registry cid _ _ heq2) m h2
                exact .inr (.inr hr.1)
            · exact .inr h

/-- Helper: with storage skipped the pre-loop writes change nothing but
the zeroed counters. -/
theorem turnEntryState_skipTrue (env : Env) (st0 : AgentState) (cid txt : String) :
    turnEntryState env st0 cid txt true =
      { st0 with calls := 0, iterations := 0, summCalls := 0, turnLog := [] } := by
  unfold turnEntryState
  simp

/-- C10: with `skipStorage` set, the incoming user message is neither
written to the Conversation Store (nothing user-roled is persisted at
all) nor archived to the semantic index (the archive is untouched), while
the loop persists the assistant-produced messages (assistant tool-call
requests, tool results, final or safety answer) exactly as it does
without the flag: its result and every non-archive field agree with the
unskipped run from the same state. -/
theorem C10_skipStorage :
    (∀ (env : Env) (maxIterations : Nat) (st0 : AgentState) (chatId userText : String)
        (res : Except TurnError String) (st' : AgentState),
      runAgent env maxIterations st0 chatId userText true = (res, st') →
      st'.archive = st0.archive ∧
      ∀ m ∈ st'.turnLog, m.role = .assistant ∨ m.role = .tool) ∧
    (∀ (env : Env) (cid : String) (fuel : Nat) (msgs : List ChatMessage) (st : AgentState),
      (agentLoop env cid true fuel msgs st).1 = (agentLoop env cid false fuel msgs st).1 ∧
      StAgree (agentLoop env cid true fuel msgs st).2 (agentLoop env cid false fuel msgs st).2) := by
  constructor
  · intro env mi st0 cid txt res st' heq
    unfold runAgent at heq
    rw [turnEntryState_skipTrue] at heq
    have hsnd : (agentLoop env cid true mi (turnEntryMessages env st0 cid txt)
        { st0 with calls := 0, iterations := 0, summCalls := 0, turnLog := [] }).2 = st' := by
      rw [heq]
    constructor
    · rw [← hsnd, (agentLoop_skipTrue_archive env cid mi _ _).1]
    · intro m hm
      rw [← hsnd] at hm
      rcases agentLoop_log_roles env cid true mi _ _ m hm with h | h
      · exact absurd h (List.not_mem_nil m)
      · exact h
  · intro env cid fuel msgs st
    exact agentLoop_skip_agree env cid true false fuel msgs st st
      ⟨rfl, rfl, rfl, rfl, rfl, rfl, rfl⟩

/-- C10 witness: a skipped-storage turn leaves the archive unchanged and
persists only assistant/tool messages. -/
theorem C10_witness :
    (runAgent envC3W 0 st0F "c" "hi" true).2.archive = st0F.archive ∧
    ∀ m ∈ (runAgent envC3W 0 st0F "c" "hi" true).2.turnLog,
      m.role = .assistant ∨ m.role = .tool := by
  have h := C10_skipStorage.1 envC3W 0 st0F "c" "hi"
    (runAgent envC3W 0 st0F "c" "hi" true).1 (runAgent envC3W 0 st0F "c" "hi" true).2 rfl
  exact h

/-- Helper: `requestCount` distributes over append. -/
theorem requestCount_append (A B : List ChatMessage) (tid : String) :
    requestCount (A ++ B) tid = requestCount A tid + requestCount B tid := by
  unfold requestCount
  rw [List.map_append, List.sum_append]

/-- Helper: a log without a matching request counts zero. -/
theorem requestCount_eq_zero_of (L : List ChatMessage) (tid : String)
    (h : ∀ m ∈ L, ∀ tc ∈ m.tool_calls, tc.id ≠ tid) : requestCount L tid = 0 := by
  induction L with
  | nil => rfl
  | cons m L ih =>
    have h1 : m.tool_calls.filter (fun tc => tc.id == tid) = [] := by
      rw [List.filter_eq_nil_iff]
      intro tc htc
      simp only [beq_iff_eq]
      exact h m (List.mem_cons_self _ _) tc htc
    show (m.tool_calls.filter (fun tc => tc.id == tid)).length + requestCount L tid = 0
    rw [h1, ih (fun m2 hm2 => h m2 (List.mem_cons_of_mem _ hm2))]
    rfl

/-- Helper: a log without tool-role messages is trivially correlated. -/
theorem correlationOk_of_no_tools (L : List ChatMessage)
    (h : ∀ m ∈ L, m.role ≠ .tool) : CorrelationOk L := by
  intro L1 m L2 hs hrole tid _
  refine absurd hrole (h m ?_)
  rw [hs]
  exact List.mem_append.mpr (.inr (List.mem_cons_self _ _))

/-- Helper: appending stays correlated when every appended tool message is
preceded by exactly one matching request. -/
theorem correlationOk_append (L M : List ChatMessage) (hL : CorrelationOk L)
    (hM : ∀ M1 m M2, M = M1 ++ m :: M2 → m.role = .tool →
      ∀ tid, m.tool_call_id = some tid →
        requestCount L tid + requestCount M1 tid = 1) :
    CorrelationOk (L ++ M) := by
  intro L1 m L2 hsplit hrole tid hid
  rcases List.append_eq_append_iff.mp hsplit with ⟨a2, hc1, hc2⟩ | ⟨c2, hc1, hc2⟩
  · rw [hc1, requestCount_append]
    exact hM a2 m L2 hc2 hrole tid hid
  · cases c2 with
    | nil =>
      have hM0 := hM [] m L2 (by simpa using hc2.symm) hrole tid hid
      have hL1 : L1 = L := by rw [hc1]; simp
      rw [hL1]
      simpa using hM0
    | cons x c3 =>
      injection hc2.symm with h1 h2
      subst h1
      exact hL L1 x c3 hc1 hrole tid hid

/-- Helper: a successful `callModel` response comes from one oracle call
made during it. -/
theorem callModel_ok_origin (env : Env) (b : Bool) (st : AgentState)
    (resp : ModelResponse) (st2 : AgentState)
    (h : callModel env b st = (.ok resp, st2)) :
    ∃ k bb, env.oracle k bb = .ok resp ∧ st.calls ≤ k ∧ k < st2.calls := by
  unfold callModel at h
  cases ho : env.oracle st.calls b with
  | ok r =>
    rw [ho] at h
    injection h with h1 h2
    injection h1 with h1
    subst h1
    subst h2
    exact ⟨st.calls, b, ho, Nat.le_refl _, Nat.lt_succ_self _⟩
  | err e =>
    rw [ho] at h
    dsimp only at h
    split at h
    · cases ho2 : env.oracle (st.calls + 1) false with
      | ok r =>
        rw [ho2] at h
        injection h with h1 h2
        injection h1 with h1
        subst h1
        subst h2
        exact ⟨st.calls + 1, false, ho2, Nat.le_succ _, Nat.lt_succ_self _⟩
      | err e2 =>
        rw [ho2] at h
        injection h with h1 _
        exact Except.noConfusion h1
    · injection h with h1 _
      exact Except.noConfusion h1

/-- Helper: identifiers already requested stay requested as the counter
grows. -/
theorem reqIdFrom_mono {env : Env} {n n2 : Nat} {tid : String}
    (h : ReqIdFrom env n tid) (hle : n ≤ n2) : ReqIdFrom env n2 tid := by
  obtain ⟨k, hk, rest⟩ := h
  exact ⟨k, lt_of_lt_of_le hk hle, rest⟩

/-- Helper: under distinct ids, a present id is matched by exactly one
request of the batch. -/
theorem filter_id_length_one {tcs : List ToolCallReq} {tid : String}
    (hnd : (tcs.map (fun tc => tc.id)).Nodup) (hmem : ∃ tc ∈ tcs, tc.id = tid) :
    (tcs.filter (fun tc => tc.id == tid)).length = 1 := by
  induction tcs with
  | nil =>
    obtain ⟨tc, h, _⟩ := hmem
    exact absurd h (List.not_mem_nil _)
  | cons a l ih =>
    rw [List.map_cons, List.nodup_cons] at hnd
    obtain ⟨hna, hndl⟩ := hnd
    by_cases ha : a.id = tid
    · have hb : (a.id == tid) = true := beq_iff_eq.mpr ha
      have hl0 : l.filter (fun tc => tc.id == tid) = [] := by
        rw [List.filter_eq_nil_iff]
        intro x hx hbx
        apply hna
        rw [List.mem_map]
        refine ⟨x, hx, ?_⟩
        rw [eq_of_beq hbx, ha]
      rw [List.filter_cons, if_pos hb, hl0]
      rfl
    · have hb : (a.id == tid) = false := beq_eq_false_iff_ne.mpr ha
      rw [List.filter_cons, if_neg (by rw [hb]; exact Bool.false_ne_true)]
      apply ih hndl
      obtain ⟨tc, htc, hid⟩ := hmem
      rcases List.mem_cons.mp htc with h | h
      · exact absurd (h ▸ hid) ha
      · exact ⟨tc, h, hid⟩

/-- Helper: under unique model-supplied tool-call ids, the loop preserves
the correlation invariant on everything it persists. -/
theorem agentLoop_correlation (env : Env) (cid : String) (skip : Bool)
    (hdist : OracleIdsDistinct env) :
    ∀ (fuel : Nat) (msgs : List ChatMessage) (st : AgentState),
      CorrelationOk st.turnLog → LogReqsFrom env st →
      CorrelationOk ((agentLoop env cid skip fuel msgs st).2).turnLog := by
  intro fuel
  induction fuel with
  | zero =>
    intro msgs st hC hR
    refine correlationOk_append st.turnLog _ hC ?_
    intro M1 m M2 hs hrole tid hid
    cases M1 with
    | nil =>
      injection hs with h1 _
      rw [← h1] at hrole
      exact Role.noConfusion hrole
    | cons x M1h =>
      injection hs with _ h2
      cases M1h with
      | nil => exact List.noConfusion h2
      | cons y t => exact List.noConfusion h2
  | succ n ih =>
    intro msgs st hC hR
    simp only [agentLoop]
    split
    · rename_i e st2 hcall
      have hf := callModel_fields env
        (useToolsFlag env { st with iterations := st.iterations + 1 })
        { st with iterations := st.iterations + 1 }
      rw [hcall] at hf
      rw [hf.2.1]
      exact hC
    · rename_i resp st2 hcall
      have hf := callModel_fields env
        (useToolsFlag env { st with iterations := st.iterations + 1 })
        { st with iterations := st.iterations + 1 }
      rw [hcall] at hf
      obtain ⟨kU, bU, hoU, hkU1, hkU2⟩ := callModel_ok_origin env _ _ resp st2 hcall
      split
      · rw [(recordUsage_fields env cid resp st2).2.1, hf.2.1]
        exact hC
      · rename_i am heq
        have hResp : respToolCalls (env.oracle kU bU) = am.tool_calls := by
          rw [hoU]
          simp [respToolCalls, heq]
        split
        · rw [(finishTurn_snd_fields env cid skip (finalTextOf am.content)
            (recordUsage env cid resp st2)).2.1]
          refine correlationOk_append _ _ ?_ ?_
          · rw [(recordUsage_fields env cid resp st2).2.1, hf.2.1]
            exact hC
          · intro M1 m M2 hs hrole tid hid
            cases M1 with
            | nil =>
              injection hs with h1 _
              rw [← h1] at hrole
              exact Role.noConfusion hrole
            | cons x M1h =>
              injection hs with _ h2
              cases M1h with
              | nil => exact List.noConfusion h2
              | cons y t => exact List.noConfusion h2
        · rename_i hne
          split
          · rename_i e heq2
            show CorrelationOk ((recordUsage env cid resp st2).turnLog ++
              [⟨.assistant, am.content, am.tool_calls, none⟩])
            refine correlationOk_append _ _ ?_ ?_
            · rw [(recordUsage_fields env cid resp st2).2.1, hf.2.1]
              exact hC
            · intro M1 m M2 hs hrole tid hid
              cases M1 with
              | nil =>
                injection hs with h1 _
                rw [← h1] at hrole
                exact Role.noConfusion hrole
              | cons x M1h =>
                injection hs with _ h2
                cases M1h with
                | nil => exact List.noConfusion h2
                | cons y t => exact List.noConfusion h2
          · rename_i tms heq2
            have hfa := execToolCalls_ok_forall2 env.registry cid am.tool_calls tms heq2
            have hStLog : st2.turnLog = st.turnLog := hf.2.1
            have hOldZero : ∀ tid, (∃ tc2 ∈ am.tool_calls, tc2.id = tid) →
                requestCount st2.turnLog tid = 0 := by
              intro tid hex
              obtain ⟨tc2, htc2, hid2⟩ := hex
              apply requestCount_eq_zero_of
              intro m2 hm2 tc3 htc3 hid3
              rw [hStLog] at hm2
              obtain ⟨k3, hk3, b3, tc4, htc4, hid4⟩ := hR m2 hm2 tc3 htc3
              have hk3U : k3 = kU := hdist.2 k3 b3 kU bU tc4 tc2
                htc4 (by rw [hResp]; exact htc2) (by rw [hid4, hid3, hid2])
              have hkU1b : st.calls ≤ kU := hkU1
              omega
            have hAmOne : ∀ tid, (∃ tc2 ∈ am.tool_calls, tc2.id = tid) →
                (am.tool_calls.filter (fun tc => tc.id == tid)).length = 1 := by
              intro tid hex
              have hnd : (am.tool_calls.map (fun tc => tc.id)).Nodup := by
                have h1 := hdist.1 kU bU
                rw [hResp] at h1
                exact h1
              exact filter_id_length_one hnd hex
            have hlog : (persistAll (persist (recordUsage env cid resp st2) cid
                ⟨.assistant, am.content, am.tool_calls, none⟩) cid tms).turnLog =
                ((recordUsage env cid resp st2).turnLog ++
                  [⟨.assistant, am.content, am.tool_calls, none⟩]) ++ tms := by
              rw [persistAll_eq]
              rfl
            have hcalls : (persistAll (persist (recordUsage env cid resp st2) cid
                ⟨.assistant, am.content, am.tool_calls, none⟩) cid tms).calls =
                st2.calls := by
              rw [persistAll_eq]
              rfl
            apply ih
            · rw [hlog]
              refine correlationOk_append _ _ ?_ ?_
              · refine correlationOk_append _ _ ?_ ?_
                · rw [(recordUsage_fields env cid resp st2).2.1, hStLog]
                  exact hC
                · intro M1 m M2 hs hrole tid hid
                  cases M1 with
                  | nil =>
                    injection hs with h1 _
                    rw [← h1] at hrole
                    exact Role.noConfusion hrole
                  | cons x M1h =>
                    injection hs with _ h2
                    cases M1h with
                    | nil => exact List.noConfusion h2
                    | cons y t => exact List.noConfusion h2
              · intro T1 m T2 hs hrole tid hid
                have hmem : m ∈ tms := by
                  rw [hs]
                  exact List.mem_append.mpr (.inr (List.mem_cons_self _ _))
                obtain ⟨tc, htc, hrel⟩ := forall2_mem_right hfa m hmem
                have hid2 : tid = tc.id := by
                  have h3 := hid.symm.trans hrel.2.1
                  injection h3
                rw [requestCount_append]
                have hz1 : requestCount (recordUsage env cid resp st2).turnLog tid = 0 := by
                  rw [(recordUsage_fields env cid resp st2).2.1]
                  exact hOldZero tid ⟨tc, htc, hid2.symm⟩
                have hz2 : requestCount T1 tid = 0 := by
                  apply requestCount_eq_zero_of
                  intro m2 hm2 tc3 htc3
                  have hm2b : m2 ∈ tms := by
                    rw [hs]
                    exact List.mem_append.mpr (.inl hm2)
                  obtain ⟨tc4, _, hrel4⟩ := forall2_mem_right hfa m2 hm2b
                  rw [hrel4.2.2] at htc3
                  exact absurd htc3 (List.not_mem_nil _)
                have hone : requestCount
                    [(⟨.assistant, am.content, am.tool_calls, none⟩ : ChatMessage)] tid = 1 := by
                  show (am.tool_calls.filter (fun tc => tc.id == tid)).length + 0 = 1
                  rw [Nat.add_zero]
                  exact hAmOne tid ⟨tc, htc, hid2.symm⟩
                rw [hz1, hone, hz2]
            · intro m hm tc htc
              rw [hcalls]
              rw [hlog] at hm
              rcases List.mem_append.mp hm with h1 | h1
              · rcases List.mem_append.mp h1 with h2 | h2
                · rw [(recordUsage_fields env cid resp st2).2.1, hStLog] at h2
                  exact reqIdFrom_mono (hR m h2 tc htc) (le_trans hkU1 (le_of_lt hkU2))
                · rw [List.mem_singleton.mp h2] at htc
                  exact ⟨kU, hkU2, bU, tc, by rw [hResp]; exact htc, rfl⟩
              · obtain ⟨tc4, _, hrel4⟩ := forall2_mem_right hfa m h1
                rw [hrel4.2.2] at htc
                exact absurd htc (List.not_mem_nil _)

/-- C7: provided the model supplies unique tool-call ids (the API contract
`OracleIdsDistinct`), every tool-role message the turn persists carries a
`tool_call_id` matched by exactly one tool-call request of an assistant
message persisted earlier in the same turn. -/
theorem C7_tool_result_correlation :
    ∀ (env : Env) (maxIterations : Nat) (st0 : AgentState) (chatId userText : String)
      (skip : Bool), OracleIdsDistinct env →
      CorrelationOk ((runAgent env maxIterations st0 chatId userText skip).2).turnLog := by
  intro env mi st0 cid txt skip hdist
  unfold runAgent
  apply agentLoop_correlation env cid skip hdist
  · rw [(turnEntryState_fields env st0 cid txt skip).2.2.2]
    apply correlationOk_of_no_tools
    intro m hm
    split at hm
    · exact absurd hm (List.not_mem_nil m)
    · rw [List.mem_singleton.mp hm]
      intro h
      exact Role.noConfusion h
  · intro m hm tc htc
    rw [(turnEntryState_fields env st0 cid txt skip).2.2.2] at hm
    split at hm
    · exact absurd hm (List.not_mem_nil m)
    · rw [List.mem_singleton.mp hm] at htc
      exact absurd htc (List.not_mem_nil tc)

/-- C7 witness: a run against a model that requests one tool call and then
answers satisfies the correlation invariant. -/
theorem C7_witness :
    CorrelationOk ((runAgent envC7W 5 st0F "c" "hello" false).2).turnLog := by
  apply C7_tool_result_correlation
  constructor
  · intro k b
    by_cases hk : (k == 0) = true
    · have : envC7W.oracle k b =
          .ok ⟨some ⟨none, [⟨"call-1", "nope", some "\x7b\x7d"⟩]⟩, none⟩ := by
        show (if k == 0 then _ else _) = _
        rw [hk]
        rfl
      rw [this]
      decide
    · have : envC7W.oracle k b = .ok ⟨some ⟨some "done", []⟩, none⟩ := by
        show (if k == 0 then _ else _) = _
        rw [Bool.not_eq_true] at hk
        rw [hk]
        rfl
      rw [this]
      decide
  · intro k b k2 b2 tc tc2 h1 h2 _
    have hzero : ∀ (kk : Nat) (bb : Bool) (tcx : ToolCallReq),
        tcx ∈ respToolCalls (envC7W.oracle kk bb) → kk = 0 := by
      intro kk bb tcx hmem
      by_cases hkk : (kk == 0) = true
      · exact eq_of_beq hkk
      · exfalso
        have : envC7W.oracle kk bb = .ok ⟨some ⟨some "done", []⟩, none⟩ := by
          show (if kk == 0 then _ else _) = _
          rw [Bool.not_eq_true] at hkk
          rw [hkk]
          rfl
        rw [this] at hmem
        simp [respToolCalls] at hmem
    rw [hzero k b tc h1, hzero k2 b2 tc2 h2]

/-- Helper: every serialized row belongs to the chat it was saved under. -/
theorem mkRow_chat_id (rid : Nat) (cid : String) (m : ChatMessage) :
    (mkRow rid cid m).chat_id = cid := by
  unfold mkRow
  cases m.role <;> rfl

/-- Helper: every serialized row carries the id it was given. -/
theorem mkRow_id (rid : Nat) (cid : String) (m : ChatMessage) :
    (mkRow rid cid m).id = rid := by
  unfold mkRow
  cases m.role <;> rfl

/-- Helper: saving one message raises the chat's message count by one. -/
theorem countMessages_save (db : Db) (cid : String) (m : ChatMessage) :
    countMessages (saveMessage db cid m) cid = countMessages db cid + 1 := by
  unfold countMessages saveMessage
  dsimp only
  rw [List.filter_append, List.length_append]
  have h1 : List.filter (fun r => r.chat_id == cid) [mkRow db.nextId cid m] =
      [mkRow db.nextId cid m] := by
    simp [List.filter_cons, mkRow_chat_id]
  rw [h1]
  rfl

/-- Helper: saving preserves database well-formedness. -/
theorem DbWf_save (db : Db) (cid : String) (m : ChatMessage) (h : DbWf db) :
    DbWf (saveMessage db cid m) := by
  obtain ⟨hb, hn⟩ := h
  constructor
  · intro r hr
    show r.id < db.nextId + 1
    rcases List.mem_append.mp hr with h1 | h1
    · exact Nat.lt_succ_of_lt (hb r h1)
    · rw [List.mem_singleton.mp h1, mkRow_id]
      exact Nat.lt_succ_self _
  · show ((db.history ++ [mkRow db.nextId cid m]).map (fun r => r.id)).Nodup
    rw [List.map_append]
    refine List.Nodup.append hn ?_ ?_
    · simp
    · intro a h1 h2
      obtain ⟨r, hr, hrid⟩ := List.mem_map.mp h1
      have ha2 : a = db.nextId := by
        simp [mkRow_id] at h2
        exact h2
      have := hb r hr
      omega

/-- Helper: keeping exactly the ids of a prefix filters to that prefix,
when ids are distinct. -/
theorem filter_take_of_nodup {m : List Row} {k : Nat}
    (hnd : (m.map (fun r => r.id)).Nodup) :
    m.filter (fun r => ((m.take k).map (fun r2 => r2.id)).contains r.id) = m.take k := by
  have hsplit : m.filter (fun r => ((m.take k).map (fun r2 => r2.id)).contains r.id) =
      (m.take k ++ m.drop k).filter
        (fun r => ((m.take k).map (fun r2 => r2.id)).contains r.id) := by
    rw [List.take_append_drop]
  rw [hsplit, List.filter_append]
  have ht : (m.take k).filter (fun r => ((m.take k).map (fun r2 => r2.id)).contains r.id) =
      m.take k := by
    rw [List.filter_eq_self]
    intro a ha
    exact List.elem_iff.mpr (List.mem_map.mpr ⟨a, ha, rfl⟩)
  have hd : (m.drop k).filter (fun r => ((m.take k).map (fun r2 => r2.id)).contains r.id) =
      [] := by
    rw [List.filter_eq_nil_iff]
    intro a ha hcon
    have hmem : a.id ∈ (m.take k).map (fun r2 => r2.id) := List.elem_iff.mp hcon
    have hnd2 : ((m.take k).map (fun r => r.id) ++ (m.drop k).map (fun r => r.id)).Nodup := by
      rw [← List.map_append, List.take_append_drop]
      exact hnd
    exact List.disjoint_of_nodup_append hnd2 hmem (List.mem_map.mpr ⟨a, ha, rfl⟩)
  rw [ht, hd, List.append_nil]

/-- Helper: keeping the ids of the `k` latest rows filters to exactly
those rows, in order. -/
theorem filter_keep_last {mine : List Row} {k : Nat}
    (hnd : (mine.map (fun r => r.id)).Nodup) :
    mine.filter (fun r => ((mine.reverse.take k).map (fun r2 => r2.id)).contains r.id) =
      (mine.reverse.take k).reverse := by
  have hndrev : (mine.reverse.map (fun r => r.id)).Nodup := by
    rw [List.map_reverse, List.nodup_reverse]
    exact hnd
  have h2 := filter_take_of_nodup (m := mine.reverse) (k := k) hndrev
  have h3 : mine.filter
      (fun r => ((mine.reverse.take k).map (fun r2 => r2.id)).contains r.id) =
      (mine.reverse.filter
        (fun r => ((mine.reverse.take k).map (fun r2 => r2.id)).contains r.id)).reverse := by
    rw [List.filter_reverse, List.reverse_reverse]
  rw [h3, h2]

/-- Helper: two filters over the same list commute. -/
theorem filter_swap {α : Type} (p q : α → Bool) (l : List α) :
    (l.filter p).filter q = (l.filter q).filter p := by
  induction l with
  | nil => rfl
  | cons a l ih => cases hp : p a <;> cases hq : q a <;> simp [List.filter_cons, hp, hq, ih]

/-- Helper: `pruneHistory` keeps exactly the chat's `k` most recent rows
(by created_at order), in their original order. -/
theorem pruneHistory_filter (db : Db) (cid : String) (k : Nat)
    (hnd : ((db.history.filter (fun r => r.chat_id == cid)).map (fun r => r.id)).Nodup) :
    (pruneHistory db cid k).history.filter (fun r => r.chat_id == cid) =
      (((db.history.filter (fun r => r.chat_id == cid)).reverse.take k)).reverse := by
  have h1 : (pruneHistory db cid k).history.filter (fun r => r.chat_id == cid) =
      ((db.history.filter (fun r => !(r.chat_id == cid) ||
        (((db.history.filter (fun r2 => r2.chat_id == cid)).reverse.take k).map
          (fun r2 => r2.id)).contains r.id)).filter (fun r => r.chat_id == cid)) := rfl
  rw [h1, filter_swap]
  have h2 : (db.history.filter (fun r => r.chat_id == cid)).filter
      (fun r => !(r.chat_id == cid) ||
        (((db.history.filter (fun r2 => r2.chat_id == cid)).reverse.take k).map
          (fun r2 => r2.id)).contains r.id) =
      (db.history.filter (fun r => r.chat_id == cid)).filter
      (fun r => (((db.history.filter (fun r2 => r2.chat_id == cid)).reverse.take k).map
          (fun r2 => r2.id)).contains r.id) := by
    apply List.filter_congr
    intro a ha
    have hca : (a.chat_id == cid) = true := (List.mem_filter.mp ha).2
    show (!(a.chat_id == cid) ||
        (((db.history.filter (fun r2 => r2.chat_id == cid)).reverse.take k).map
          (fun r2 => r2.id)).contains a.id) =
      (((db.history.filter (fun r2 => r2.chat_id == cid)).reverse.take k).map
          (fun r2 => r2.id)).contains a.id
    rw [hca]
    rfl
  rw [h2]
  exact filter_keep_last hnd

/-- Helper: updating the summary leaves the history untouched. -/
theorem updateChatSummary_history (db : Db) (cid s : String) :
    (updateChatSummary db cid s).history = db.history := by
  unfold updateChatSummary
  split <;> rfl

/-- Helper: the upsert rewrites the found row in place. -/
theorem find?_map_replace (cid s : String) :
    ∀ (l : List (String × String)), (l.find? (fun p => p.1 == cid)).isSome →
      ((l.map (fun p => if p.1 == cid then (cid, s) else p)).find? (fun p => p.1 == cid)) =
        some (cid, s) := by
  intro l
  induction l with
  | nil => intro h; simp [List.find?] at h
  | cons p l ih =>
    intro h
    by_cases hp : (p.1 == cid) = true
    · rw [List.map_cons, if_pos hp]
      exact List.find?_cons_of_pos _ (beq_self_eq_true cid)
    · rw [List.map_cons, if_neg hp]
      have hstep : List.find? (fun q => q.1 == cid)
          (p :: List.map (fun q => if q.1 == cid then (cid, s) else q) l) =
          List.find? (fun q => q.1 == cid)
            (List.map (fun q => if q.1 == cid then (cid, s) else q) l) :=
        List.find?_cons_of_neg _ hp
      rw [hstep]
      apply ih
      have hh : List.find? (fun q => q.1 == cid) (p :: l) =
          List.find? (fun q => q.1 == cid) l :=
        List.find?_cons_of_neg _ hp
      rw [hh] at h
      exact h

/-- Helper: after the upsert the chat's summary row holds the new digest. -/
theorem updateChatSummary_find (db : Db) (cid s : String) :
    ((updateChatSummary db cid s).summaries.find? (fun p => p.1 == cid)) = some (cid, s) := by
  unfold updateChatSummary
  split
  · rename_i hex
    show ((db.summaries.map (fun p => if p.1 == cid then (cid, s) else p)).find?
      (fun p => p.1 == cid)) = some (cid, s)
    exact find?_map_replace cid s db.summaries hex
  · rename_i hex
    show ((db.summaries ++ [(cid, s)]).find? (fun p => p.1 == cid)) = some (cid, s)
    have h0 : db.summaries.find? (fun p => p.1 == cid) = none := by
      cases hf : db.summaries.find? (fun p => p.1 == cid) with
      | none => rfl
      | some q => exact absurd (by rw [hf]; rfl) hex
    have h2 : List.find? (fun q => q.1 == cid) [(cid, s)] = some (cid, s) :=
      List.find?_cons_of_pos _ (beq_self_eq_true cid)
    rw [List.find?_append, h0, h2]
    rfl

/-- Helper: the upsert makes the chat's summary read back as the new
digest. -/
theorem updateChatSummary_getChatSummary (db : Db) (cid s : String) (h : s ≠ "") :
    getChatSummary (updateChatSummary db cid s) cid = some s := by
  unfold getChatSummary
  rw [updateChatSummary_find]
  dsimp only
  rw [if_neg (by simp [h])]

/-- Helper: the in-place rewrite does not change how many rows match. -/
theorem filter_map_replace_length (cid s : String) (l : List (String × String)) :
    ((l.map (fun p => if p.1 == cid then (cid, s) else p)).filter
      (fun p => p.1 == cid)).length =
      (l.filter (fun p => p.1 == cid)).length := by
  induction l with
  | nil => rfl
  | cons p l ih =>
    by_cases hp : (p.1 == cid) = true
    · rw [List.map_cons, if_pos hp]
      rw [List.filter_cons, List.filter_cons]
      rw [if_pos (show (((cid, s).1 == cid) = true) from beq_self_eq_true cid)]
      rw [if_pos hp]
      rw [List.length_cons, List.length_cons, ih]
    · rw [List.map_cons, if_neg hp]
      rw [List.filter_cons, List.filter_cons, if_neg hp, if_neg hp]
      exact ih

/-- Helper: the upsert leaves exactly one summary row per chat (given the
schema invariant of at most one beforehand): it overwrites, never
appends a second row. -/
theorem updateChatSummary_filter_length (db : Db) (cid s : String)
    (h : (db.summaries.filter (fun p => p.1 == cid)).length ≤ 1) :
    ((updateChatSummary db cid s).summaries.filter (fun p => p.1 == cid)).length = 1 := by
  unfold updateChatSummary
  split
  · rename_i hex
    show ((db.summaries.map (fun p => if p.1 == cid then (cid, s) else p)).filter
      (fun p => p.1 == cid)).length = 1
    rw [filter_map_replace_length]
    have h1 : 1 ≤ (db.summaries.filter (fun p => p.1 == cid)).length := by
      cases hf : db.summaries.find? (fun p => p.1 == cid) with
      | none => rw [hf] at hex; exact absurd hex (by simp)
      | some q =>
        have hq := List.find?_some hf
        have hqm := List.mem_of_find?_eq_some hf
        exact List.length_pos_of_mem (List.mem_filter.mpr ⟨hqm, hq⟩)
    omega
  · rename_i hex
    show ((db.summaries ++ [(cid, s)]).filter (fun p => p.1 == cid)).length = 1
    rw [List.filter_append]
    have h0 : db.summaries.filter (fun p => p.1 == cid) = [] := by
      rw [List.filter_eq_nil_iff]
      intro p hp hpred
      exact hex ((List.find?_isSome).mpr ⟨p, hp, hpred⟩)
    rw [h0]
    simp

/-- Helper: a successful summarization response with nonempty content
upserts the digest and prunes the history to the last 15 rows. -/
theorem runSummarization_ok (summ : ModelOutcome) (r : ModelResponse)
    (am : AssistantMsg) (s : String) (hok : summ = .ok r) (hch : r.choice = some am)
    (hcontent : am.content = some s) (hne : s ≠ "") (db : Db) (cid : String) :
    runSummarization summ db cid = pruneHistory (updateChatSummary db cid s) cid 15 := by
  subst hok
  unfold runSummarization
  dsimp only
  rw [hch]
  dsimp only
  rw [hcontent]
  dsimp only
  rw [if_neg (by simp [hne])]

/-- C3: when a model call made with tool schemas throws an error recognized
by `isToolUnsupportedError` (status ?? code in 404/400/403, or a message
mentioning tool/function/"not supported"/"not a valid"), the process-wide
flag is cleared and the call is retried exactly once without tool schemas
(the retry consumes exactly one further call, and its own failure
propagates); an unrecognized error propagates with no retry. -/
theorem C3_tool_unsupported_retry :
    ∀ (env : Env) (st : AgentState) (e : ApiError),
      env.oracle st.calls true = .err e →
      ((isToolUnsupportedError e = true →
        callModel env true st =
          ((match env.oracle (st.calls + 1) false with
            | .ok r => .ok r
            | .err e2 => .error (.api e2)),
           { st with modelSupportsTools := false, calls := st.calls + 2 })) ∧
       (isToolUnsupportedError e = false →
        callModel env true st = (.error (.api e), { st with calls := st.calls + 1 }))) := by
  intro env st e he
  constructor
  · intro hrec
    unfold callModel
    rw [he]
    simp only [hrec, Bool.true_and, if_true]
    cases env.oracle (st.calls + 1) false <;> rfl
  · intro hrec
    unfold callModel
    rw [he]
    simp only [hrec, Bool.true_and, Bool.false_eq_true, if_false]

/-- C3 witness: a 404 on the first (tools-attached) call clears the flag
and the retry's answer is returned after exactly two calls. -/
theorem C3_witness :
    isToolUnsupportedError ⟨some 404, none, "boom"⟩ = true ∧
    callModel envC3W true st0F =
      (.ok ⟨some ⟨some "done", []⟩, none⟩,
       { st0F with modelSupportsTools := false, calls := 2 }) := by
  have h := (C3_tool_unsupported_retry envC3W st0F ⟨some 404, none, "boom"⟩ rfl).1 (by decide)
  exact ⟨by decide, by rw [h]; rfl⟩

/-- Helper: membership through the insertion step. -/
theorem mem_insertByScore {a h : QdrantHit} {l : List QdrantHit} :
    a ∈ insertByScore h l ↔ a = h ∨ a ∈ l := by
  induction l with
  | nil => simp [insertByScore]
  | cons x xs ih =>
    unfold insertByScore
    split
    · simp [List.mem_cons]
    · simp [List.mem_cons, ih]
      tauto

/-- Helper: sorting by score preserves membership. -/
theorem mem_sortByScoreDesc {a : QdrantHit} {l : List QdrantHit} :
    a ∈ sortByScoreDesc l ↔ a ∈ l := by
  induction l with
  | nil => simp [sortByScoreDesc]
  | cons x xs ih => simp [sortByScoreDesc, mem_insertByScore, ih]

/-- C6: everything `recallMemories` returns is the formatted text of a hit
whose payload belongs to the queried conversation and whose similarity
score is at least `MIN_SCORE` (0.4); nothing from another conversation and
nothing below the threshold is ever returned. -/
theorem C6_recall_scoped_and_thresholded :
    ∀ (points : List MemoryPoint) (score : MemoryPoint → ℚ) (ok : Bool)
      (cid query : String) (lim : Nat) (s : String),
      s ∈ recallMemories points score ok cid query lim →
      ∃ h : QdrantHit, s = formatMemory h ∧ h.point.payload.chatId = cid ∧
        MIN_SCORE ≤ h.score ∧ h.point ∈ points ∧ h.score = score h.point := by
  intro points score ok cid query lim s hs
  unfold recallMemories at hs
  split at hs
  · simp at hs
  · split at hs
    · simp at hs
    · rw [List.mem_map] at hs
      obtain ⟨h, hh, rfl⟩ := hs
      rw [List.mem_filter] at hh
      obtain ⟨hh1, hscore⟩ := hh
      unfold qdrantSearch at hh1
      have hh2 := List.mem_of_mem_take hh1
      rw [mem_sortByScoreDesc, List.mem_filter] at hh2
      obtain ⟨hh3, _⟩ := hh2
      rw [List.mem_map] at hh3
      obtain ⟨p, hp, rfl⟩ := hh3
      rw [List.mem_filter] at hp
      refine ⟨⟨p, score p⟩, rfl, ?_, ?_, hp.1, rfl⟩
      · exact eq_of_beq hp.2
      · exact of_decide_eq_true hscore

/-- C6 witness: a matching stored memory is recalled and certified to be
conversation-scoped and above threshold. -/
theorem C6_witness :
    "[0, user]: hello world memory" ∈
      recallMemories ptsC6 (fun _ => 1) true "c1" "hello" 5 ∧
    ∃ h : QdrantHit, "[0, user]: hello world memory" = formatMemory h ∧
      h.point.payload.chatId = "c1" ∧ MIN_SCORE ≤ h.score ∧
      h.point ∈ ptsC6 ∧ h.score = (fun _ => (1 : ℚ)) h.point := by
  have hm : "[0, user]: hello world memory" ∈
      recallMemories ptsC6 (fun _ => 1) true "c1" "hello" 5 := by decide
  exact ⟨hm, C6_recall_scoped_and_thresholded ptsC6 (fun _ => 1) true "c1" "hello" 5 _ hm⟩

/-- C4 counterexample: the claim fails as stated.  The model requests a
call to the unregistered tool "nope" with an arguments string JSON.parse
rejects; because `JSON.parse` runs before the registry lookup and is not
wrapped in try/catch (agent.ts line 226), the turn aborts with a thrown
error instead of producing the synthetic not-found tool result. -/
theorem C4_counterexample :
    (runAgent envC4X 10 st0F "c" "hi" false).1 = .error (.json "nope") := by
  rfl

/-- C4 as amended: for every requested tool call whose arguments string is
accepted by JSON.parse, a missing tool yields the synthetic error tool
result and a throwing executor is caught into an error-text tool result —
dispatch never fails, so such tool failures never abort the turn. -/
theorem C4_tool_failures_do_not_abort :
    ∀ (reg : Registry) (cid : String) (tcs : List ToolCallReq),
      (∀ tc ∈ tcs, tc.arguments ≠ none) →
      ∃ ms, execToolCalls reg cid tcs = .ok ms ∧
        List.Forall₂ (ToolResultRel reg cid) tcs ms := by
  intro reg cid tcs
  induction tcs with
  | nil => exact fun _ => ⟨[], rfl, List.Forall₂.nil⟩
  | cons tc rest ih =>
    intro h
    obtain ⟨ms, hms, hrel⟩ := ih (fun x hx => h x (List.mem_cons_of_mem _ hx))
    cases harg : tc.arguments with
    | none => exact absurd harg (h tc (List.mem_cons_self _ _))
    | some a =>
      unfold execToolCalls
      rw [harg, hms]
      refine ⟨_, rfl, List.Forall₂.cons ?_ hrel⟩
      split
      · rename_i hget
        refine ⟨rfl, rfl, rfl, fun _ => rfl, ?_, ?_⟩
        · intro t a2 em _ hg
          rw [hget] at hg
          exact Option.noConfusion hg
        · intro t a2 r _ hg
          rw [hget] at hg
          exact Option.noConfusion hg
      · rename_i tool hget
        split
        · rename_i r hex
          refine ⟨rfl, rfl, rfl, ?_, ?_, ?_⟩
          · intro hg
            rw [hget] at hg
            exact Option.noConfusion hg
          · intro t a2 em ha2 hg hex2
            rw [hget] at hg
            injection hg with hg
            rw [harg] at ha2
            injection ha2 with ha2
            rw [hg, ha2, hex2] at hex
            exact Except.noConfusion hex
          · intro t a2 r2 ha2 hg hex2
            rw [hget] at hg
            injection hg with hg
            rw [harg] at ha2
            injection ha2 with ha2
            rw [hg, ha2, hex2] at hex
            injection hex with hex
            rw [hex]
        · rename_i em hex
          refine ⟨rfl, rfl, rfl, ?_, ?_, ?_⟩
          · intro hg
            rw [hget] at hg
            exact Option.noConfusion hg
          · intro t a2 em2 ha2 hg hex2
            rw [hget] at hg
            injection hg with hg
            rw [harg] at ha2
            injection ha2 with ha2
            rw [hg, ha2, hex2] at hex
            injection hex with hex
            rw [hex]
          · intro t a2 r2 ha2 hg hex2
            rw [hget] at hg
            injection hg with hg
            rw [harg] at ha2
            injection ha2 with ha2
            rw [hg, ha2, hex2] at hex
            exact Except.noConfusion hex

/-- C4 witness: a missing tool and a present tool dispatch to two tool
results with no abort. -/
theorem C4_witness :
    ∃ ms, execToolCalls regW "c" tcsW = .ok ms ∧
      List.Forall₂ (ToolResultRel regW "c") tcsW ms :=
  C4_tool_failures_do_not_abort regW "c" tcsW (by decide)

/-- C5: on a final-answer turn of a chat whose stored message count
reaches the threshold (so the count after persisting the answer exceeds
40), exactly one summarization call is issued; when it succeeds with a
nonempty digest, the digest overwrites the chat's single summary row
(exactly one such row remains, reading back as the new digest), and the
chat's history is pruned to exactly its 15 most recent rows, in order,
deleting the rest.  Hypotheses: a well-formed table (ids unique, as
AUTOINCREMENT guarantees), at most one pre-existing summary row for the
chat (the chat_id PRIMARY KEY guarantees this), and a successful
summarization response carrying nonempty content. -/
theorem C5_summarization_overwrite_and_prune (env : Env) (cid : String)
    (skip : Bool) (txt : String) (st : AgentState) (r : ModelResponse)
    (am : AssistantMsg) (s : String)
    (hwf : DbWf st.db)
    (hsum1 : (st.db.summaries.filter (fun p => p.1 == cid)).length ≤ 1)
    (hcnt : 40 ≤ countMessages st.db cid)
    (hok : env.summOutcome = .ok r) (hch : r.choice = some am)
    (hcontent : am.content = some s) (hne : s ≠ "") :
    ((finishTurn env cid skip txt st).2).summCalls = st.summCalls + 1 ∧
    getChatSummary ((finishTurn env cid skip txt st).2).db cid = some s ∧
    (((finishTurn env cid skip txt st).2).db.summaries.filter
      (fun p => p.1 == cid)).length = 1 ∧
    countMessages ((finishTurn env cid skip txt st).2).db cid = 15 ∧
    ((finishTurn env cid skip txt st).2).db.history.filter
      (fun rr => rr.chat_id == cid) =
      ((((saveMessage st.db cid ⟨.assistant, some txt, [], none⟩).history.filter
          (fun rr => rr.chat_id == cid)).reverse.take 15)).reverse := by
  have hfields := finishTurn_snd_fields env cid skip txt st
  have hcsave : countMessages (saveMessage st.db cid ⟨.assistant, some txt, [], none⟩) cid =
      countMessages st.db cid + 1 := countMessages_save _ _ _
  have hgt : 40 < countMessages (saveMessage st.db cid ⟨.assistant, some txt, [], none⟩) cid := by
    omega
  have hdb : ((finishTurn env cid skip txt st).2).db =
      runSummarization env.summOutcome
        (saveMessage st.db cid ⟨.assistant, some txt, [], none⟩) cid := by
    rw [hfields.1, if_pos hgt]
  have hsc : ((finishTurn env cid skip txt st).2).summCalls = st.summCalls + 1 := by
    rw [hfields.2.2.2, if_pos hgt]
  have hrun : runSummarization env.summOutcome
      (saveMessage st.db cid ⟨.assistant, some txt, [], none⟩) cid =
      pruneHistory (updateChatSummary
        (saveMessage st.db cid ⟨.assistant, some txt, [], none⟩) cid s) cid 15 :=
    runSummarization_ok env.summOutcome r am s hok hch hcontent hne _ cid
  have hwfD : DbWf (saveMessage st.db cid ⟨.assistant, some txt, [], none⟩) :=
    DbWf_save _ _ _ hwf
  have hndD : (((saveMessage st.db cid ⟨.assistant, some txt, [], none⟩).history.filter
      (fun rr => rr.chat_id == cid)).map (fun rr => rr.id)).Nodup :=
    List.Nodup.sublist (List.Sublist.map _ (List.filter_sublist _)) hwfD.2
  have hhist : (updateChatSummary
      (saveMessage st.db cid ⟨.assistant, some txt, [], none⟩) cid s).history =
      (saveMessage st.db cid ⟨.assistant, some txt, [], none⟩).history :=
    updateChatSummary_history _ _ _
  have hprune := pruneHistory_filter
    (updateChatSummary (saveMessage st.db cid ⟨.assistant, some txt, [], none⟩) cid s)
    cid 15 (by rw [hhist]; exact hndD)
  rw [hhist] at hprune
  refine ⟨hsc, ?_, ?_, ?_, ?_⟩
  · rw [hdb, hrun]
    show getChatSummary (updateChatSummary
      (saveMessage st.db cid ⟨.assistant, some txt, [], none⟩) cid s) cid = some s
    exact updateChatSummary_getChatSummary _ cid s hne
  · rw [hdb, hrun]
    show ((updateChatSummary
      (saveMessage st.db cid ⟨.assistant, some txt, [], none⟩) cid s).summaries.filter
      (fun p => p.1 == cid)).length = 1
    apply updateChatSummary_filter_length
    exact hsum1
  · rw [hdb, hrun]
    unfold countMessages
    rw [hprune]
    rw [List.length_reverse, List.length_take, List.length_reverse]
    have h15 : 15 ≤ ((saveMessage st.db cid ⟨.assistant, some txt, [], none⟩).history.filter
        (fun r2 => r2.chat_id == cid)).length := by
      have h16 : 15 ≤ countMessages
          (saveMessage st.db cid ⟨.assistant, some txt, [], none⟩) cid := by omega
      exact h16
    rw [Nat.min_def, if_pos h15]
  · rw [hdb, hrun]
    exact hprune

/-- C5 witness: a chat with 41 stored messages and an existing summary row;
the final answer triggers one summarization, the digest overwrites the
row, and the history is pruned to the latest 15 rows. -/
theorem C5_witness :
    ((finishTurn envC5W "c" false "ans" stC5W).2).summCalls = stC5W.summCalls + 1 ∧
    getChatSummary ((finishTurn envC5W "c" false "ans" stC5W).2).db "c" = some "digest" ∧
    (((finishTurn envC5W "c" false "ans" stC5W).2).db.summaries.filter
      (fun p => p.1 == "c")).length = 1 ∧
    countMessages ((finishTurn envC5W "c" false "ans" stC5W).2).db "c" = 15 ∧
    ((finishTurn envC5W "c" false "ans" stC5W).2).db.history.filter
      (fun rr => rr.chat_id == "c") =
      ((((saveMessage stC5W.db "c" ⟨.assistant, some "ans", [], none⟩).history.filter
          (fun rr => rr.chat_id == "c")).reverse.take 15)).reverse :=
  C5_summarization_overwrite_and_prune envC5W "c" false "ans" stC5W
    ⟨some ⟨some "digest", []⟩, none⟩ ⟨some "digest", []⟩ "digest"
    ⟨by decide, by decide⟩ (by decide) (by decide) rfl rfl rfl (by decide)

end GravityClaw
